import Mathlib

/-!
Verification of the schedule-data access layer of the `apsbss` package.

The Python sources are shallowly embedded:

* JSON-like raw records (nested dictionaries, lists, strings, numbers,
  `None`) become the inductive type `JValue`;
* Python dictionaries become association lists whose insertion operation
  (`alInsert`) updates the first matching key in place and otherwise
  appends, matching CPython dict semantics (unique keys, insertion order,
  last assignment wins);
* `datetime` instants are modelled as integers; an ISO date string is
  modelled as the decimal representation of its instant, so
  `datetime.datetime.fromisoformat` becomes integer parsing that raises
  `ValueError` on an unparseable string and `TypeError` on a non-string;
* fallible Python code returns `Except PyErr`, with one `PyErr`
  constructor per Python exception class that the modelled code can
  raise, carrying the data that the exception message carries.
-/

/-- Python exceptions raised by the modelled code. -/
inductive PyErr where
  | valueError : PyErr
  | typeError : PyErr
  | attributeError : PyErr
  | keyError : PyErr
  | indexError : PyErr
  | runNotFound (run : String) : PyErr
  | proposalNotFound (proposal_id : Nat) (beamline : String) (run : String) : PyErr
  deriving DecidableEq, Repr

/-- JSON-like raw value as served to the Python layer: dictionaries,
lists, strings, numbers and `None`. -/
inductive JValue where
  | obj (entries : List (String × JValue)) : JValue
  | arr (elems : List JValue) : JValue
  | str (s : String) : JValue
  | num (n : Int) : JValue
  | null : JValue
  deriving Repr

mutual

/-- Structural equality of `JValue`s (Python `==` on JSON-like data). -/
def JValue.beq : JValue → JValue → Bool
  | .obj a, .obj b => beqEntries a b
  | .arr a, .arr b => beqElems a b
  | .str a, .str b => a == b
  | .num a, .num b => a == b
  | .null, .null => true
  | _, _ => false

/-- Structural equality of dictionary entry lists. -/
def beqEntries : List (String × JValue) → List (String × JValue) → Bool
  | [], [] => true
  | (k, v) :: r, (k', v') :: r' => k == k' && JValue.beq v v' && beqEntries r r'
  | _, _ => false

/-- Structural equality of list elements. -/
def beqElems : List JValue → List JValue → Bool
  | [], [] => true
  | v :: r, v' :: r' => JValue.beq v v' && beqElems r r'
  | _, _ => false

end

instance : BEq JValue := ⟨JValue.beq⟩

/-- Python `is None` test on a raw value. -/
def JValue.isNull : JValue → Bool
  | .null => true
  | _ => false

/-- `str.split(sep)` for a one-character separator, accumulator form. -/
def splitChAux (sep : Char) : List Char → List Char → List String
  | [], acc => [String.mk acc.reverse]
  | c :: cs, acc =>
      if c = sep then String.mk acc.reverse :: splitChAux sep cs []
      else splitChAux sep cs (c :: acc)

/-- Python `str.split(sep)` for a one-character separator: always at
least one piece, empty pieces preserved. -/
def splitCh (sep : Char) (s : String) : List String :=
  splitChAux sep s.data []

/-- `core.miner`'s loop: walk the path parts, calling `.get(part, fallback)`
at each step; `fallback` is `{}` before the last part and the caller's
default at the last part (`i` is the 1-based position, `num` the number
of parts).  Calling `.get` on a non-dictionary raises `AttributeError`. -/
def minerParts : JValue → List String → Nat → Nat → JValue → Except PyErr JValue
  | obj, [], _, _, _ => .ok obj
  | JValue.obj entries, part :: rest, i, num, dflt =>
      let fallback := if i < num then JValue.obj [] else dflt
      minerParts ((entries.lookup part).getD fallback) rest (i + 1) num dflt
  | _, _ :: _, _, _, _ => .error .attributeError

/-- `core.miner(root, path, default)`: nested lookup along a dot-separated
path; an absent key yields `{}` at intermediate segments and the default
at the last segment; a present non-dictionary intermediate raises. -/
def miner (root : JValue) (path : String) (dflt : JValue) : Except PyErr JValue :=
  let parts := splitCh '.' path
  minerParts root parts 1 parts.length dflt

/-- Python `d[k] = v` on a dictionary modelled as an association list:
replace the value at the first matching key in place, else append. -/
def alInsert [BEq κ] : List (κ × α) → κ → α → List (κ × α)
  | [], k, v => [(k, v)]
  | (k', v') :: rest, k, v =>
      if k' == k then (k, v) :: rest else (k', v') :: alInsert rest k v

/-- A Python dict built from a stream of key/value assignments (dict
comprehension semantics: last assignment to a key wins, first-assignment
position kept). -/
def dictOf [BEq κ] (l : List (κ × α)) : List (κ × α) :=
  l.foldl (fun m kv => alInsert m kv.1 kv.2) []

/-- Python `int(s)`: optional sign followed by decimal digits; `none`
models the `ValueError` of an unparseable string. -/
def pyInt (s : String) : Option Int :=
  let digitsToNat : List Char → Option Nat := fun cs =>
    if cs ≠ [] ∧ cs.all Char.isDigit then
      some (cs.foldl (fun n c => 10 * n + c.toNat - '0'.toNat) 0)
    else none
  match s.data with
  | '-' :: rest => (digitsToNat rest).map (fun n => -(n : Int))
  | '+' :: rest => (digitsToNat rest).map (fun n => (n : Int))
  | cs => (digitsToNat cs).map (fun n => (n : Int))

/-- `core.trim(text, length)`: raise `ValueError` on `length < 1`;
truncate outright when `length < 5`; otherwise truncate to `length - 3`
characters and append an ellipsis when the text is longer than
`length`. -/
def trim (text : String) (length : Int) : Except PyErr String :=
  if length < 1 then .error .valueError
  else if length < 5 then .ok (String.mk (text.data.take length.toNat))
  else if (text.data.length : Int) > length then
    .ok (String.mk (text.data.take (length - 3).toNat) ++ "...")
  else .ok text

/-- `datetime.datetime.fromisoformat` applied to a raw value: parses an
ISO string (modelled as a decimal instant) raising `ValueError` when the
string does not parse, and raises `TypeError` on a non-string. -/
def fromisoformat : JValue → Except PyErr Int
  | .str s =>
      match pyInt s with
      | some n => .ok n
      | none => .error .valueError
  | _ => .error .typeError

/-- Python `raw[k]` on a dictionary: `KeyError` when absent. -/
def dictItem (raw : List (String × JValue)) (k : String) : Except PyErr JValue :=
  match raw.lookup k with
  | some v => .ok v
  | none => .error .keyError

/-- `ProposalBase.startTime`: `fromisoformat(self._raw["startTime"])`. -/
def PB_startTime (raw : List (String × JValue)) : Except PyErr Int := do
  fromisoformat (← dictItem raw "startTime")

/-- `ProposalBase.endTime`: `fromisoformat(self._raw["endTime"])`. -/
def PB_endTime (raw : List (String × JValue)) : Except PyErr Int := do
  fromisoformat (← dictItem raw "endTime")

/-- The body of `self.startTime <= now <= self.endTime` with Python's
chained-comparison short-circuit: `endTime` is only evaluated when
`startTime <= now` holds. -/
def chainedCurrent (st en : Except PyErr Int) (now : Int) : Except PyErr Bool := do
  let s ← st
  if s ≤ now then
    let e ← en
    pure (decide (now ≤ e))
  else
    pure false

/-- `ProposalBase.current` (legacy record model): the chained comparison
inside `try:`, with `except Exception: return False` — total. -/
def PB_current (raw : List (String × JValue)) (now : Int) : Bool :=
  match chainedCurrent (PB_startTime raw) (PB_endTime raw) now with
  | .ok b => b
  | .error _ => false

/-- `IS_BeamtimeRequest.startTime`: `miner(raw, "activity.startTime")`,
falling back to `miner(raw, "run.startTime", "")` when that is `None`,
then `fromisoformat`. -/
def IS_startTime (raw : JValue) : Except PyErr Int := do
  let a ← miner raw "activity.startTime" JValue.null
  let iso ← if a.isNull then miner raw "run.startTime" (JValue.str "") else pure a
  fromisoformat iso

/-- `IS_BeamtimeRequest.endTime`: `miner(raw, "activity.endTime")`,
falling back to `miner(raw, "run.endTime", "")` when that is `None`,
then `fromisoformat`. -/
def IS_endTime (raw : JValue) : Except PyErr Int := do
  let a ← miner raw "activity.endTime" JValue.null
  let iso ← if a.isNull then miner raw "run.endTime" (JValue.str "") else pure a
  fromisoformat iso

/-- `IS_BeamtimeRequest.current` (restful record model): the chained
comparison inside `try:`, but with `except ValueError: return False`
only — every other exception propagates. -/
def IS_current (raw : JValue) (now : Int) : Except PyErr Bool :=
  match chainedCurrent (IS_startTime raw) (IS_endTime raw) now with
  | .error .valueError => .ok false
  | r => r

/-- One run record from the backend's run catalog (`name`, `startTime`,
`endTime`; instants as integers). -/
structure RunInfo where
  name : String
  startTime : Int
  endTime : Int
  deriving Repr, DecidableEq

/-- One ESAF as consumed by the facade: its id, the parsed
`experimentStartDate`, and the badges of its `experimentUsers`. -/
structure EsafRec where
  esafId : Nat
  experimentStartDate : Int
  badges : List String
  deriving Repr, DecidableEq

/-- One stored proposal object as consumed by the facade: its
`proposal_id` and the badges of its experimenters. -/
structure PropRec where
  pid : Nat
  badges : List String
  deriving Repr, DecidableEq

/-- The facade's environment: the backend run catalog (`bss_api._runs`),
the name of the current run (`bss_api.current_run["name"]`), the
upstream ESAF listing keyed by sector and calendar year
(`esaf_api.listEsafs`), and the backend proposal listing
(`bss_api.proposals`, returned dictionary in iteration order). -/
structure ServerModel where
  runDetails : List RunInfo
  currentRun : String
  listEsafs : String → Int → List EsafRec
  proposalsFor : String → String → List PropRec

/-- `Server.runs`: the run names, in catalog order. -/
def runNames (S : ServerModel) : List String :=
  S.runDetails.map (·.name)

/-- `Server._runs`: dictionary of run details keyed by name. -/
def runsDict (S : ServerModel) : List (String × RunInfo) :=
  dictOf (S.runDetails.map (fun r => (r.name, r)))

/-- Lexicographic comparison of character lists by code point — the
order Python's `sorted` uses on strings. -/
def charListLeB : List Char → List Char → Bool
  | [], _ => true
  | _ :: _, [] => false
  | a :: as, b :: bs =>
      if a < b then true else if b < a then false else charListLeB as bs

/-- Python's `<=` on strings: lexicographic by code point. -/
def strLe (a b : String) : Bool :=
  charListLeB a.data b.data

/-- The descending-sort relation on run names. -/
def descRun (a b : String) : Prop :=
  strLe b a = true

/-- The ascending-sort relation on run names. -/
def ascRun (a b : String) : Prop :=
  strLe a b = true

instance : DecidableRel descRun := fun a b =>
  inferInstanceAs (Decidable (strLe b a = true))

instance : DecidableRel ascRun := fun a b =>
  inferInstanceAs (Decidable (strLe a b = true))

/-- `sorted(l, reverse=True)` on strings (stable, descending). -/
def sortDescStr (l : List String) : List String :=
  List.insertionSort descRun l

/-- `sorted(l)` on strings (stable, ascending). -/
def sortStr (l : List String) : List String :=
  List.insertionSort ascRun l

/-- `sorted(l)` on naturals (stable, ascending). -/
def sortNat (l : List Nat) : List Nat :=
  List.insertionSort (· ≤ ·) l

/-- `list.index(c)`: position of the first occurrence, `none` when the
element is absent (Python raises `ValueError` there). -/
def idxOfFirst (c : String) : List String → Option Nat
  | [] => none
  | x :: xs => if x = c then some 0 else (idxOfFirst c xs).map (· + 1)

/-- `run = run or self.current_run`: `None` and the empty string resolve
to the current run. -/
def resolveRun (S : ServerModel) (run? : Option String) : String :=
  match run? with
  | none => S.currentRun
  | some s => if s = "" then S.currentRun else s

/-- `Server.recent_runs(nruns)`: take the catalog prefix through the
first occurrence of the current run, sort it descending, keep the first
`nruns` names; `list.index` raises when the current run is absent. -/
def Server.recent_runs (S : ServerModel) (nruns : Nat) : Except PyErr (List String) :=
  match idxOfFirst S.currentRun (runNames S) with
  | none => .error .valueError
  | some i => .ok ((sortDescStr ((runNames S).take (i + 1))).take nruns)

/-- The `runs` argument accepted by `Server._parse_runs_arg`: `None`, a
string, an iterable of strings, or anything else. -/
inductive RunsArg where
  | noneArg : RunsArg
  | strArg (s : String) : RunsArg
  | listArg (l : List String) : RunsArg
  | otherArg : RunsArg

/-- `Server._parse_runs_arg(runs)`: resolve a symbolic run reference to
a set of concrete run names (the returned Python set is modelled as a
deduplicated list). -/
def Server.parse_runs_arg (S : ServerModel) (arg : RunsArg) : Except PyErr (List String) :=
  match arg with
  | .noneArg => .ok [S.currentRun]
  | .strArg s =>
      if s = "current" ∨ s = "now" ∨ s = "" then .ok [S.currentRun]
      else if s = "past" ∨ s = "previous" ∨ s = "prior" then
        let rr := sortDescStr (runNames S)
        match idxOfFirst S.currentRun rr with
        | none => .error .valueError
        | some p =>
            match rr.get? (1 + p) with
            | none => .error .indexError
            | some r => .ok [r]
      else if s = "future" ∨ s = "next" then
        let rr := sortDescStr (runNames S)
        match idxOfFirst S.currentRun rr with
        | none => .error .valueError
        | some p =>
            if p = 0 then .error .keyError
            else
              match rr.get? (p - 1) with
              | none => .error .indexError
              | some r => .ok [r]
      else if s = "recent" then do
        pure (List.dedup (← Server.recent_runs S 6))
      else if s = "all" then .ok (List.dedup (runNames S))
      else .ok [s]
  | .listArg l => .ok l.dedup
  | .otherArg => .error .typeError

/-- The `sector` argument of `Server.esafs`: `int` or `str`. -/
inductive SectorArg where
  | int (n : Int) : SectorArg
  | str (s : String) : SectorArg

/-- Sector normalization in `Server.esafs`: an integer is formatted with
`"%02d"`; a remaining single-character string is zero-padded. -/
def formatSector : SectorArg → String
  | .int n => if 0 ≤ n ∧ n < 10 then "0" ++ toString n else toString n
  | .str s => if s.length = 1 then "0" ++ s else s

/-- `int(run.split("-")[0])`: calendar year of a run name. -/
def yearOf (run : String) : Option Int :=
  pyInt ((splitCh '-' run).headD "")

/-- `Server.esafs(sector, run)`: normalize the sector, resolve the run
against the catalog (raising `RunNotFound` when absent), list the
upstream ESAFs for that sector and calendar year, and keep exactly those
whose parsed `experimentStartDate` lies within the run's interval. -/
def Server.esafs (S : ServerModel) (sector : SectorArg) (run? : Option String) :
    Except PyErr (List EsafRec) :=
  let sec := formatSector sector
  let run := resolveRun S run?
  match (runsDict S).lookup run with
  | none => .error (.runNotFound run)
  | some info =>
      match yearOf run with
      | none => .error .valueError
      | some year =>
          .ok ((S.listEsafs sec year).filter (fun e =>
            decide (info.startTime ≤ e.experimentStartDate) &&
            decide (e.experimentStartDate ≤ info.endTime)))

/-- The dictionary returned by `Server.proposals(beamline, run)`, keyed
by each stored proposal's own `proposal_id`. -/
def proposalsMap (S : ServerModel) (beamline run : String) : List (Nat × PropRec) :=
  dictOf ((S.proposalsFor beamline run).map (fun p => (p.pid, p)))

/-- `Server.proposal(proposal_id, beamline, run)`: `.get` on the
proposal dictionary, raising `ProposalNotFound` (whose message carries
the id, beamline and run) when absent. -/
def Server.proposal (S : ServerModel) (proposal_id : Nat) (beamline : String)
    (run? : Option String) : Except PyErr PropRec :=
  let run := resolveRun S run?
  match (proposalsMap S beamline run).lookup proposal_id with
  | none => .error (.proposalNotFound proposal_id beamline run)
  | some p => .ok p

/-- The `esafs += self.esafs(sector, run)` accumulation of
`Server.current_esafs_and_proposals` over the recent runs, in loop
order. -/
def collectEsafs (S : ServerModel) (sector : SectorArg) :
    List String → Except PyErr (List EsafRec)
  | [] => .ok []
  | r :: rs => do
      let l ← Server.esafs S sector (some r)
      let ls ← collectEsafs S sector rs
      pure (l ++ ls)

/-- The `proposals += list(ppp.values())` accumulation of
`Server.current_esafs_and_proposals` over the recent runs, in loop
order (`ppp` is the proposal dictionary; the `len(ppp) > 0` guard is
kept). -/
def collectProps (S : ServerModel) (beamline : String) : List String → List PropRec
  | [] => []
  | r :: rs =>
      let ppp := proposalsMap S beamline r
      (if ppp.length > 0 then ppp.map (·.2) else []) ++ collectProps S beamline rs

/-- `Server.current_esafs_and_proposals(beamline, nruns)`: gather ESAFs
and proposals over the `nruns` most recent runs, deduplicate each by id
(dict comprehension, last wins), then map each proposal id whose sorted
badge list is matched by at least one ESAF's sorted badge list to the
sorted list of the matching ESAF ids. -/
def Server.current_esafs_and_proposals (S : ServerModel) (beamline : String)
    (nruns : Nat) : Except PyErr (List (Nat × List Nat)) := do
  let sector := (splitCh '-' beamline).headD ""
  let recent ← Server.recent_runs S nruns
  let esafsL ← collectEsafs S (.str sector) recent
  let propsL := collectProps S beamline recent
  let esafDict := dictOf (esafsL.map (fun e => (e.esafId, e)))
  let propDict := dictOf (propsL.map (fun p => (p.pid, p)))
  pure (propDict.filterMap (fun kv =>
    let common := esafDict.filterMap (fun ev =>
      if sortStr ev.2.badges = sortStr kv.2.badges then some ev.1 else none)
    if common = [] then none else some (kv.1, sortNat common)))

/-- Environment of `IS_SchedulingServer`: the remote data behind
`webget`, as deterministic functions of the request path pieces —
`run/getCurrentRun` (its `runName`), `beamtimeRequests/
findBeamtimeRequestsByRunAndBeamline/{run}/{beamline}`, and
`activity/findByRunNameAndBeamlineId/{run}/{beamline}`. -/
structure ISEnv where
  currentRunName : String
  requests : String → String → List JValue
  activitiesRemote : String → String → List JValue

/-- Mutable fields of an `IS_SchedulingServer` instance touched by
`proposals`: the single-slot cache (`_beamline`, `_run`, `_proposals`),
the keyed cache `_cache` used by `activities`, plus a ghost counter of
proposal fetches (`webget` calls issued for beamtime requests). -/
structure ISState where
  _beamline : Option String
  _run : Option String
  _proposals : List (JValue × JValue)
  _cache : List (String × List (JValue × JValue))
  nfetch : Nat
  deriving Repr

/-- `f"activities-{beamline!r}-{run!r}"`. -/
def activitiesKey (beamline run : String) : String :=
  "activities-'" ++ beamline ++ "'-'" ++ run ++ "'"

/-- The dict-comprehension pairs of `IS_SchedulingServer.activities`:
`miner(activity, "beamtime.proposal.gupId")` paired with the activity. -/
def actPairs : List JValue → Except PyErr (List (JValue × JValue))
  | [] => .ok []
  | a :: rest => do
      let g ← miner a "beamtime.proposal.gupId" JValue.null
      let ps ← actPairs rest
      pure ((g, a) :: ps)

/-- `IS_SchedulingServer.activities(beamline, run)`: serve from the
keyed `_cache`, else fetch the remote activity list and cache the
dictionary keyed by gupId. -/
def IS_activities (env : ISEnv) (beamline run : String) (st : ISState) :
    Except PyErr (List (JValue × JValue) × ISState) :=
  let key := activitiesKey beamline run
  match st._cache.lookup key with
  | some d => .ok (d, st)
  | none =>
      match actPairs (env.activitiesRemote run beamline) with
      | .error e => .error e
      | .ok pairs =>
          let d := dictOf pairs
          .ok (d, { st with _cache := st._cache ++ [(key, d)] })

/-- Python `entry["activity"] = activity` on a raw record. -/
def jSet (v : JValue) (k : String) (x : JValue) : Except PyErr JValue :=
  match v with
  | .obj es => .ok (.obj (alInsert es k x))
  | _ => .error .typeError

/-- `IS_BeamtimeRequest.proposal_id`:
`miner(raw, "proposal.gupId", "no GUP")`. -/
def gupIdOf (entry : JValue) : Except PyErr JValue :=
  miner entry "proposal.gupId" (JValue.str "no GUP")

/-- The per-entry loop of `IS_SchedulingServer.proposals`: key each
entry by its gupId, enrich it with a matching activity when one exists,
and assign it into `self._proposals`. -/
def buildProps (env : ISEnv) (beamline run : String) :
    List JValue → ISState → Except PyErr ISState
  | [], st => .ok st
  | entry :: rest, st => do
      let gup ← gupIdOf entry
      let (acts, st1) ← IS_activities env beamline run st
      match acts.lookup gup with
      | none =>
          buildProps env beamline run rest
            { st1 with _proposals := alInsert st1._proposals gup entry }
      | some activity => do
          let entry2 ← jSet entry "activity" activity
          buildProps env beamline run rest
            { st1 with _proposals := alInsert st1._proposals gup entry2 }

/-- `IS_SchedulingServer.proposals(beamline, run)`: default `run` to the
current run's name, and refetch only when the requested pair differs
from the single-slot cache's `(_beamline, _run)`; otherwise return the
cached `_proposals` unchanged. -/
def IS_proposals (env : ISEnv) (beamline : String) (run? : Option String)
    (st : ISState) : Except PyErr (List (JValue × JValue) × ISState) :=
  let run := match run? with
    | none => env.currentRunName
    | some r => r
  if st._beamline ≠ some beamline ∨ st._run ≠ some run then
    let entries := env.requests run beamline
    let st1 : ISState :=
      { st with
        nfetch := st.nfetch + 1
        _beamline := some beamline
        _run := some run
        _proposals := [] }
    match buildProps env beamline run entries st1 with
    | .error e => .error e
    | .ok st2 => .ok (st2._proposals, st2)
  else
    .ok (st._proposals, st)

/-! ### Concrete sample servers and adapter states (used as test inputs) -/

/-- A catalog listed newest-first (descending), current run chronologically
earliest. -/
def Sdesc : ServerModel :=
  { runDetails := [⟨"2024-2", 0, 1⟩, ⟨"2024-1", 2, 3⟩]
    currentRun := "2024-1"
    listEsafs := fun _ _ => []
    proposalsFor := fun _ _ => [] }

/-- A catalog listed oldest-first (ascending) with runs before and after the
current one. -/
def Sasc : ServerModel :=
  { runDetails := [⟨"2023-3", 0, 1⟩, ⟨"2024-1", 2, 3⟩, ⟨"2024-2", 4, 5⟩]
    currentRun := "2024-1"
    listEsafs := fun _ _ => []
    proposalsFor := fun _ _ => [] }

/-- A catalog whose current run is its most recent entry. -/
def Slast : ServerModel :=
  { runDetails := [⟨"2023-3", 0, 1⟩, ⟨"2024-1", 2, 3⟩]
    currentRun := "2024-1"
    listEsafs := fun _ _ => []
    proposalsFor := fun _ _ => [] }

/-- A server with one run and an upstream ESAF listing containing one ESAF
inside and one outside the run's interval. -/
def Sesaf : ServerModel :=
  { runDetails := [⟨"2024-1", 10, 20⟩]
    currentRun := "2024-1"
    listEsafs := fun sec y =>
      if sec = "09" ∧ y = 2024 then [⟨301, 15, ["10"]⟩, ⟨302, 25, ["10"]⟩] else []
    proposalsFor := fun _ _ => [] }

/-- A server with one stored proposal on beamline `9-ID` in run `2024-1`. -/
def Sprop : ServerModel :=
  { runDetails := [⟨"2024-1", 0, 9⟩]
    currentRun := "2024-1"
    listEsafs := fun _ _ => []
    proposalsFor := fun b r =>
      if b = "9-ID" ∧ r = "2024-1" then [⟨77, ["10", "20"]⟩] else [] }

/-- A server exercising badge matching: proposal 7 has badges
`{"10","20"}`, ESAF 101 has badges `{"20","10"}` (same set), ESAF 102 has
badges `{"10"}` (subset). -/
def Smatch : ServerModel :=
  { runDetails := [⟨"2024-1", 0, 10⟩, ⟨"2024-2", 20, 30⟩]
    currentRun := "2024-2"
    listEsafs := fun sec y =>
      if sec = "09" ∧ y = 2024 then [⟨101, 5, ["20", "10"]⟩, ⟨102, 25, ["10"]⟩] else []
    proposalsFor := fun b r =>
      if b = "9-ID" ∧ r = "2024-2" then [⟨7, ["10", "20"]⟩] else [] }

/-- A trivial restful-adapter environment (empty remote listings). -/
def env0 : ISEnv :=
  { currentRunName := "2024-1"
    requests := fun _ _ => []
    activitiesRemote := fun _ _ => [] }

/-- A freshly constructed restful-adapter state. -/
def ist0 : ISState :=
  { _beamline := none, _run := none, _proposals := [], _cache := [], nfetch := 0 }

/-- The adapter state after one proposal fetch of `(9-ID, 2024-1)` against
`env0`. -/
def ist1 : ISState :=
  { _beamline := some "9-ID", _run := some "2024-1", _proposals := [], _cache := []
    nfetch := 1 }

/-! ### Order facts for the lexicographic string comparison -/

theorem charListLeB_refl (l : List Char) : charListLeB l l = true := by
  induction l with
  | nil => rfl
  | cons a as ih => simp [charListLeB, lt_irrefl, ih]

theorem charListLeB_total (a b : List Char) :
    charListLeB a b = true ∨ charListLeB b a = true := by
  induction a generalizing b with
  | nil => left; rfl
  | cons x xs ih =>
    cases b with
    | nil => right; rfl
    | cons y ys =>
      rcases lt_trichotomy x y with h | h | h
      · left; simp [charListLeB, h]
      · subst h
        rcases ih ys with h' | h'
        · left; simp [charListLeB, lt_irrefl, h']
        · right; simp [charListLeB, lt_irrefl, h']
      · right; simp [charListLeB, h]

theorem charListLeB_trans {a b c : List Char} (hab : charListLeB a b = true)
    (hbc : charListLeB b c = true) : charListLeB a c = true := by
  induction a generalizing b c with
  | nil => rfl
  | cons x xs ih =>
    cases b with
    | nil => simp [charListLeB] at hab
    | cons y ys =>
      cases c with
      | nil => simp [charListLeB] at hbc
      | cons z zs =>
        rcases lt_trichotomy x y with hxy | hxy | hxy
        · rcases lt_trichotomy y z with hyz | hyz | hyz
          · simp [charListLeB, lt_trans hxy hyz]
          · subst hyz; simp [charListLeB, hxy]
          · simp [charListLeB, hyz, lt_asymm hyz] at hbc
        · subst hxy
          simp only [charListLeB, lt_irrefl, if_false] at hab
          rcases lt_trichotomy x z with h | h | h
          · simp [charListLeB, h]
          · subst h
            simp only [charListLeB, lt_irrefl, if_false] at hbc ⊢
            exact ih hab hbc
          · simp [charListLeB, h, lt_asymm h] at hbc
        · simp [charListLeB, hxy, lt_asymm hxy] at hab

theorem charListLeB_antisymm {a b : List Char} (hab : charListLeB a b = true)
    (hba : charListLeB b a = true) : a = b := by
  induction a generalizing b with
  | nil =>
    cases b with
    | nil => rfl
    | cons y ys => simp [charListLeB] at hba
  | cons x xs ih =>
    cases b with
    | nil => simp [charListLeB] at hab
    | cons y ys =>
      rcases lt_trichotomy x y with hxy | hxy | hxy
      · simp [charListLeB, hxy, lt_asymm hxy] at hba
      · subst hxy
        simp only [charListLeB, lt_irrefl, if_false] at hab hba
        exact congrArg (x :: ·) (ih hab hba)
      · simp [charListLeB, hxy, lt_asymm hxy] at hab

theorem strLe_refl (a : String) : strLe a a = true :=
  charListLeB_refl a.data

theorem strLe_total (a b : String) : strLe a b = true ∨ strLe b a = true :=
  charListLeB_total a.data b.data

theorem strLe_trans {a b c : String} (hab : strLe a b = true)
    (hbc : strLe b c = true) : strLe a c = true :=
  charListLeB_trans hab hbc

theorem strLe_antisymm {a b : String} (hab : strLe a b = true)
    (hba : strLe b a = true) : a = b := by
  cases a with
  | mk da =>
    cases b with
    | mk db => exact congrArg String.mk (charListLeB_antisymm hab hba)

theorem strLe_false_of_true_of_ne {a b : String} (h : strLe a b = true) (hne : a ≠ b) :
    strLe b a = false := by
  cases hba : strLe b a with
  | false => rfl
  | true => exact absurd (strLe_antisymm h hba) hne

instance : IsTotal String descRun :=
  ⟨fun a b => (strLe_total b a).elim Or.inl Or.inr⟩

instance : IsTrans String descRun :=
  ⟨fun _ _ _ h1 h2 => strLe_trans h2 h1⟩

instance : IsTotal String ascRun :=
  ⟨fun a b => (strLe_total a b).elim Or.inl Or.inr⟩

instance : IsTrans String ascRun :=
  ⟨fun _ _ _ h1 h2 => strLe_trans h1 h2⟩

/-! ### Facts about `idxOfFirst` (Python `list.index`) -/

theorem idxOfFirst_eq_none {c : String} {l : List String} :
    idxOfFirst c l = none ↔ c ∉ l := by
  induction l with
  | nil => simp [idxOfFirst]
  | cons x xs ih =>
    by_cases h : x = c
    · subst h
      simp [idxOfFirst]
    · simp only [idxOfFirst, if_neg h, List.mem_cons]
      rw [Option.map_eq_none', ih]
      simp [Ne.symm h]

theorem idxOfFirst_spec {c : String} {l : List String} {p : Nat}
    (h : idxOfFirst c l = some p) :
    ∃ hp : p < l.length, l.get ⟨p, hp⟩ = c ∧
      ∀ i, (hi : i < l.length) → i < p → l.get ⟨i, hi⟩ ≠ c := by
  induction l generalizing p with
  | nil => cases h
  | cons x xs ih =>
    by_cases hx : x = c
    · subst hx
      rw [idxOfFirst, if_pos rfl] at h
      cases h
      exact ⟨Nat.succ_pos _, rfl, fun i hi hlt => absurd hlt (Nat.not_lt_zero i)⟩
    · rw [idxOfFirst, if_neg hx] at h
      cases hq : idxOfFirst c xs with
      | none => rw [hq] at h; cases h
      | some q =>
        rw [hq] at h
        cases h
        obtain ⟨hq1, hq2, hq3⟩ := ih hq
        refine ⟨Nat.succ_lt_succ hq1, hq2, ?_⟩
        intro i hi hlt
        cases i with
        | zero => exact hx
        | succ j => exact hq3 j (Nat.lt_of_succ_lt_succ hi) (Nat.lt_of_succ_lt_succ hlt)

theorem idxOfFirst_isSome_of_mem {c : String} {l : List String} (h : c ∈ l) :
    ∃ p, idxOfFirst c l = some p := by
  cases hx : idxOfFirst c l with
  | none => exact absurd h (idxOfFirst_eq_none.mp hx)
  | some p => exact ⟨p, rfl⟩

/-! ### Dictionary (association-list) lemmas -/

theorem lookup_cons_self [BEq κ] [LawfulBEq κ] (es : List (κ × α)) (k : κ) (v : α) :
    ((k, v) :: es).lookup k = some v := by
  simp [List.lookup_cons]

theorem lookup_cons_ne [BEq κ] [LawfulBEq κ] (es : List (κ × α)) {k k' : κ} (v : α)
    (h : k' ≠ k) : ((k, v) :: es).lookup k' = es.lookup k' := by
  rw [List.lookup_cons, beq_eq_false_iff_ne.mpr h]

theorem lookup_alInsert [BEq κ] [LawfulBEq κ] [DecidableEq κ] (m : List (κ × α))
    (k : κ) (v : α) (k' : κ) :
    (alInsert m k v).lookup k' = if k' = k then some v else m.lookup k' := by
  induction m with
  | nil =>
    by_cases h : k' = k
    · subst h; rw [alInsert, lookup_cons_self, if_pos rfl]
    · rw [alInsert, lookup_cons_ne _ _ h, if_neg h]
  | cons kv rest ih =>
    obtain ⟨k0, v0⟩ := kv
    rw [alInsert]
    by_cases h0 : k0 = k
    · subst h0
      rw [if_pos (beq_self_eq_true k0)]
      by_cases h' : k' = k0
      · subst h'; rw [lookup_cons_self, if_pos rfl]
      · rw [lookup_cons_ne _ _ h', if_neg h', lookup_cons_ne _ _ h']
    · rw [if_neg (by simp [h0])]
      by_cases h' : k' = k0
      · subst h'
        rw [lookup_cons_self, if_neg h0, lookup_cons_self]
      · rw [lookup_cons_ne _ _ h', ih, lookup_cons_ne _ _ h']

theorem lookup_append_cases [BEq κ] (l₁ l₂ : List (κ × α)) (k : κ) :
    (l₁ ++ l₂).lookup k =
      match l₁.lookup k with
      | some v => some v
      | none => l₂.lookup k := by
  induction l₁ with
  | nil => simp
  | cons kv rest ih =>
    obtain ⟨k0, v0⟩ := kv
    rw [List.cons_append, List.lookup_cons, List.lookup_cons]
    cases h : k == k0 with
    | true => simp
    | false => simpa using ih

theorem lookup_foldl_alInsert [BEq κ] [LawfulBEq κ] [DecidableEq κ] (l : List (κ × α))
    (m : List (κ × α)) (k : κ) :
    ((l.foldl (fun m kv => alInsert m kv.1 kv.2) m).lookup k) =
      match l.reverse.lookup k with
      | some v => some v
      | none => m.lookup k := by
  induction l generalizing m with
  | nil => simp
  | cons kv t ih =>
    obtain ⟨k1, v1⟩ := kv
    rw [List.foldl_cons, ih, List.reverse_cons, lookup_append_cases]
    cases h : t.reverse.lookup k with
    | some v => simp [h]
    | none =>
      simp only [h]
      rw [lookup_alInsert]
      by_cases h' : k = k1
      · subst h'
        rw [if_pos rfl, lookup_cons_self]
      · rw [if_neg h', lookup_cons_ne _ _ h', List.lookup_nil]

theorem lookup_dictOf [BEq κ] [LawfulBEq κ] [DecidableEq κ] (l : List (κ × α)) (k : κ) :
    (dictOf l).lookup k = l.reverse.lookup k := by
  rw [dictOf, lookup_foldl_alInsert]
  cases h : l.reverse.lookup k <;> simp

theorem mem_keys_alInsert [BEq κ] [LawfulBEq κ] [DecidableEq κ] (m : List (κ × α))
    (k : κ) (v : α) (k' : κ) :
    k' ∈ (alInsert m k v).map Prod.fst ↔ k' ∈ m.map Prod.fst ∨ k' = k := by
  induction m with
  | nil => simp [alInsert]
  | cons kv rest ih =>
    obtain ⟨k0, v0⟩ := kv
    rw [alInsert]
    by_cases h0 : k0 = k
    · subst h0
      rw [if_pos (beq_self_eq_true k0)]
      simp only [List.map_cons, List.mem_cons]
      tauto
    · rw [if_neg (by simp [h0])]
      simp only [List.map_cons, List.mem_cons, ih]
      tauto

theorem nodup_keys_alInsert [BEq κ] [LawfulBEq κ] [DecidableEq κ] (m : List (κ × α))
    (k : κ) (v : α) (h : (m.map Prod.fst).Nodup) :
    ((alInsert m k v).map Prod.fst).Nodup := by
  induction m with
  | nil => simp [alInsert]
  | cons kv rest ih =>
    obtain ⟨k0, v0⟩ := kv
    simp only [List.map_cons, List.nodup_cons] at h
    rw [alInsert]
    by_cases h0 : k0 = k
    · subst h0
      rw [if_pos (beq_self_eq_true k0)]
      simpa using h
    · rw [if_neg (by simp [h0])]
      simp only [List.map_cons, List.nodup_cons]
      refine ⟨?_, ih h.2⟩
      rw [mem_keys_alInsert]
      rintro (hmem | hee)
      · exact h.1 hmem
      · exact h0 hee

theorem nodup_keys_dictOf [BEq κ] [LawfulBEq κ] [DecidableEq κ] (l : List (κ × α)) :
    ((dictOf l).map Prod.fst).Nodup := by
  rw [dictOf]
  have general :
      ∀ (t : List (κ × α)) (m : List (κ × α)), (m.map Prod.fst).Nodup →
        ((t.foldl (fun m kv => alInsert m kv.1 kv.2) m).map Prod.fst).Nodup := by
    intro t
    induction t with
    | nil => intro m hm; simpa using hm
    | cons kv rest ih =>
      intro m hm
      rw [List.foldl_cons]
      exact ih _ (nodup_keys_alInsert m kv.1 kv.2 hm)
  exact general l [] (by simp)

theorem lookup_eq_none_of_not_mem_keys [BEq κ] [LawfulBEq κ] {m : List (κ × α)} {k : κ}
    (h : k ∉ m.map Prod.fst) : m.lookup k = none := by
  induction m with
  | nil => rfl
  | cons kv rest ih =>
    obtain ⟨k0, v0⟩ := kv
    simp only [List.map_cons, List.mem_cons] at h
    push_neg at h
    rw [lookup_cons_ne _ _ h.1]
    exact ih h.2

theorem lookup_eq_some_iff_mem [BEq κ] [LawfulBEq κ] [DecidableEq κ] {m : List (κ × α)}
    (hm : (m.map Prod.fst).Nodup) (k : κ) (v : α) :
    m.lookup k = some v ↔ (k, v) ∈ m := by
  induction m with
  | nil => simp
  | cons kv rest ih =>
    obtain ⟨k0, v0⟩ := kv
    simp only [List.map_cons, List.nodup_cons] at hm
    by_cases h' : k = k0
    · subst h'
      rw [lookup_cons_self]
      constructor
      · intro hv
        injection hv with hv
        subst hv
        exact List.mem_cons_self _ _
      · intro hmem
        rcases List.mem_cons.mp hmem with he | hmem2
        · have hv : v = v0 := congrArg Prod.snd he
          subst hv
          rfl
        · exact absurd (List.mem_map_of_mem Prod.fst hmem2) hm.1
    · rw [lookup_cons_ne _ _ h', ih hm.2]
      constructor
      · exact fun h => List.mem_cons_of_mem _ h
      · intro hmem
        rcases List.mem_cons.mp hmem with he | hmem2
        · exact absurd (congrArg Prod.fst he) h'
        · exact hmem2

theorem lookup_filterMap_keyed [BEq κ] [LawfulBEq κ] [DecidableEq κ] (m : List (κ × α))
    (g : α → Option β) (hm : (m.map Prod.fst).Nodup) (k : κ) :
    (m.filterMap (fun kv => (g kv.2).map (fun b => (kv.1, b)))).lookup k =
      (m.lookup k).bind g := by
  induction m with
  | nil => simp
  | cons kv rest ih =>
    obtain ⟨k0, v0⟩ := kv
    simp only [List.map_cons, List.nodup_cons] at hm
    rw [List.filterMap_cons]
    cases hg : g v0 with
    | none =>
      simp only [Option.map_none']
      by_cases h' : k = k0
      · subst h'
        rw [lookup_cons_self]
        rw [lookup_eq_none_of_not_mem_keys (m := List.filterMap _ rest)]
        · rw [show (some v0).bind g = g v0 from rfl, hg]
        · intro hmem
          apply hm.1
          rcases List.mem_map.mp hmem with ⟨⟨kk, b⟩, hkb, hfst⟩
          rcases List.mem_filterMap.mp hkb with ⟨⟨ka, va⟩, hmem2, heq⟩
          cases hq : g va with
          | none => rw [hq] at heq; cases heq
          | some bb =>
            rw [hq] at heq
            have hka : ka = kk := congrArg Prod.fst (Option.some.inj heq)
            subst hka
            exact hfst ▸ List.mem_map_of_mem Prod.fst hmem2
      · rw [lookup_cons_ne _ _ h', ih hm.2]
    | some b =>
      simp only [Option.map_some']
      by_cases h' : k = k0
      · subst h'
        rw [lookup_cons_self, lookup_cons_self]
        rw [show (some v0).bind g = g v0 from rfl, hg]
      · rw [lookup_cons_ne _ _ h', lookup_cons_ne _ _ h', ih hm.2]

/-! ### Facts about the descending run-name sort -/

theorem sortDescStr_sorted (l : List String) : List.Sorted descRun (sortDescStr l) :=
  List.sorted_insertionSort descRun l

theorem mem_sortDescStr {x : String} {l : List String} : x ∈ sortDescStr l ↔ x ∈ l :=
  List.mem_insertionSort descRun

theorem sorted_desc_get_le {rr : List String} (hs : List.Sorted descRun rr)
    {c : String} {p : Nat} (hp : idxOfFirst c rr = some p)
    {i : Nat} (hi : i < rr.length) :
    (i < p → strLe (rr.get ⟨i, hi⟩) c = false) ∧
      (p ≤ i → strLe (rr.get ⟨i, hi⟩) c = true) := by
  obtain ⟨hplen, hgetp, hbefore⟩ := idxOfFirst_spec hp
  constructor
  · intro hlt
    have hrel : descRun (rr.get ⟨i, hi⟩) (rr.get ⟨p, hplen⟩) :=
      hs.rel_get_of_lt (by exact hlt)
    rw [hgetp] at hrel
    exact strLe_false_of_true_of_ne hrel (Ne.symm (hbefore i hi hlt))
  · intro hge
    rcases Nat.eq_or_lt_of_le hge with heq | hlt
    · have : rr.get ⟨i, hi⟩ = c := by
        subst heq
        exact hgetp
      rw [this]
      exact strLe_refl c
    · have hrel : descRun (rr.get ⟨p, hplen⟩) (rr.get ⟨i, hi⟩) :=
      hs.rel_get_of_lt (by exact hlt)
      rw [hgetp] at hrel
      exact hrel

/-- C2 helper: position of the current run in the descending-sorted
catalog is 0 exactly when nothing in the catalog is later. -/
theorem idx_zero_iff_no_later {S : ServerModel} {p : Nat}
    (hp : idxOfFirst S.currentRun (sortDescStr (runNames S)) = some p) :
    p = 0 ↔ ∀ r ∈ runNames S, strLe r S.currentRun = true := by
  have hs := sortDescStr_sorted (runNames S)
  constructor
  · intro h0 r hr
    subst h0
    obtain ⟨⟨j, hj⟩, hget⟩ := List.mem_iff_get.mp (mem_sortDescStr.mpr hr)
    have := (sorted_desc_get_le hs hp hj).2 (Nat.zero_le j)
    rw [hget] at this
    exact this
  · intro hall
    by_contra hne
    have h0 : 0 < p := Nat.pos_of_ne_zero hne
    have hlen : p < (sortDescStr (runNames S)).length := (idxOfFirst_spec hp).1
    have h0len : 0 < (sortDescStr (runNames S)).length := Nat.lt_trans h0 hlen
    have hfalse := (sorted_desc_get_le hs hp h0len).1 h0
    have hmem : (sortDescStr (runNames S)).get ⟨0, h0len⟩ ∈ runNames S :=
      mem_sortDescStr.mp (List.get_mem _ _ _)
    rw [hall _ hmem] at hfalse
    cases hfalse

/-- C2: with the current run present in the catalog,
`_parse_runs_arg("next")` (and `"future"`) raises a lookup error
(`KeyError`) exactly when no catalog run is later than the current run;
and whenever some later run exists it returns a set with exactly one
name — the least run name later than the current run, i.e. the run
immediately following it in descending-sorted order. -/
theorem parse_runs_next_spec (S : ServerModel) (sym : String)
    (hsym : sym = "future" ∨ sym = "next")
    (hcur : S.currentRun ∈ runNames S) :
    (Server.parse_runs_arg S (.strArg sym) = .error .keyError ↔
        ∀ r ∈ runNames S, strLe r S.currentRun = true)
    ∧ ((∃ r ∈ runNames S, strLe r S.currentRun = false) →
        ∃ s, Server.parse_runs_arg S (.strArg sym) = .ok [s] ∧ s ∈ runNames S ∧
          strLe s S.currentRun = false ∧
          ∀ t ∈ runNames S, strLe t S.currentRun = false → strLe s t = true) := by
  obtain ⟨p, hp⟩ := idxOfFirst_isSome_of_mem (mem_sortDescStr.mpr hcur)
  have hred : Server.parse_runs_arg S (.strArg sym) =
      (match idxOfFirst S.currentRun (sortDescStr (runNames S)) with
        | none => .error .valueError
        | some p =>
            if p = 0 then .error .keyError
            else
              match (sortDescStr (runNames S)).get? (p - 1) with
              | none => .error .indexError
              | some r => .ok [r]) := by
    rcases hsym with h | h <;> subst h <;> rfl
  rw [hred, hp]
  dsimp only
  have hs := sortDescStr_sorted (runNames S)
  have hplen := (idxOfFirst_spec hp).1
  constructor
  · constructor
    · intro hres
      by_cases h0 : p = 0
      · exact (idx_zero_iff_no_later hp).mp h0
      · exfalso
        rw [if_neg h0] at hres
        have hm1 : p - 1 < (sortDescStr (runNames S)).length :=
          Nat.lt_of_le_of_lt (Nat.sub_le p 1) hplen
        rw [List.get?_eq_get hm1] at hres
        cases hres
    · intro hall
      rw [if_pos ((idx_zero_iff_no_later hp).mpr hall)]
  · rintro ⟨r, hr, hrf⟩
    have h0 : p ≠ 0 := by
      intro h0
      have := (idx_zero_iff_no_later hp).mp h0 r hr
      rw [hrf] at this
      cases this
    rw [if_neg h0]
    have hm1 : p - 1 < (sortDescStr (runNames S)).length :=
      Nat.lt_of_le_of_lt (Nat.sub_le p 1) hplen
    rw [List.get?_eq_get hm1]
    refine ⟨_, rfl, ?_, ?_, ?_⟩
    · exact mem_sortDescStr.mp (List.get_mem _ _ _)
    · exact (sorted_desc_get_le hs hp hm1).1
        (Nat.sub_lt (Nat.pos_of_ne_zero h0) Nat.one_pos)
    · intro t ht htf
      obtain ⟨⟨j, hj⟩, hjget⟩ := List.mem_iff_get.mp (mem_sortDescStr.mpr ht)
      have hjp : j < p := by
        by_contra hge
        have := (sorted_desc_get_le hs hp hj).2 (Nat.le_of_not_lt hge)
        rw [hjget, htf] at this
        cases this
      rcases Nat.lt_or_ge j (p - 1) with hlt | hge
      · have hrel : descRun ((sortDescStr (runNames S)).get ⟨j, hj⟩)
            ((sortDescStr (runNames S)).get ⟨p - 1, hm1⟩) :=
          hs.rel_get_of_lt (by exact hlt)
        rw [hjget] at hrel
        exact hrel
      · have hje : j = p - 1 := Nat.le_antisymm (Nat.le_sub_one_of_lt hjp) hge
        subst hje
        rw [← hjget]
        exact strLe_refl _

/-- C2 witness: on the concrete ascending catalog `Sasc` (current run
`2024-1`, later run `2024-2`), the characterization holds with the
hypotheses discharged. -/
theorem parse_runs_next_spec_witness :
    ("next" = "future" ∨ "next" = "next") ∧ Sasc.currentRun ∈ runNames Sasc ∧
    ((Server.parse_runs_arg Sasc (.strArg "next") = .error .keyError ↔
        ∀ r ∈ runNames Sasc, strLe r Sasc.currentRun = true)
      ∧ ((∃ r ∈ runNames Sasc, strLe r Sasc.currentRun = false) →
          ∃ s, Server.parse_runs_arg Sasc (.strArg "next") = .ok [s] ∧
            s ∈ runNames Sasc ∧ strLe s Sasc.currentRun = false ∧
            ∀ t ∈ runNames Sasc, strLe t Sasc.currentRun = false →
              strLe s t = true)) :=
  ⟨Or.inr rfl, by decide,
    parse_runs_next_spec Sasc "next" (Or.inr rfl) (by decide)⟩

/-- C10: when the catalog has no duplicate names, contains the current
run, and the current run is the chronologically earliest entry (so it is
last in the descending-sorted list), `_parse_runs_arg("past")` — and
`"previous"`, `"prior"` — raises an uncaught index error from reading one
position past the end of the sorted list, not the dedicated lookup
error. -/
theorem parse_runs_past_spec (S : ServerModel) (sym : String)
    (hsym : sym = "past" ∨ sym = "previous" ∨ sym = "prior")
    (hnd : (runNames S).Nodup)
    (hcur : S.currentRun ∈ runNames S)
    (hmin : ∀ r ∈ runNames S, strLe S.currentRun r = true) :
    Server.parse_runs_arg S (.strArg sym) = .error .indexError := by
  obtain ⟨p, hp⟩ := idxOfFirst_isSome_of_mem (mem_sortDescStr.mpr hcur)
  have hred : Server.parse_runs_arg S (.strArg sym) =
      (match idxOfFirst S.currentRun (sortDescStr (runNames S)) with
        | none => .error .valueError
        | some p =>
            match (sortDescStr (runNames S)).get? (1 + p) with
            | none => .error .indexError
            | some r => .ok [r]) := by
    rcases hsym with h | h | h <;> subst h <;> rfl
  rw [hred, hp]
  dsimp only
  have hs := sortDescStr_sorted (runNames S)
  have hplen := (idxOfFirst_spec hp).1
  have hgetp := (idxOfFirst_spec hp).2.1
  have hnd' : (sortDescStr (runNames S)).Nodup :=
    (List.perm_insertionSort descRun (runNames S)).nodup_iff.mpr hnd
  have hlast : (sortDescStr (runNames S)).length ≤ 1 + p := by
    by_contra hlt
    push_neg at hlt
    have hj : p + 1 < (sortDescStr (runNames S)).length := by omega
    have hle := (sorted_desc_get_le hs hp hj).2 (by omega)
    have hmem : (sortDescStr (runNames S)).get ⟨p + 1, hj⟩ ∈ runNames S :=
      mem_sortDescStr.mp (List.get_mem _ _ _)
    have heq : (sortDescStr (runNames S)).get ⟨p + 1, hj⟩ = S.currentRun :=
      strLe_antisymm hle (hmin _ hmem)
    have hfin : (⟨p, hplen⟩ : Fin (sortDescStr (runNames S)).length) = ⟨p + 1, hj⟩ :=
      (List.Nodup.get_inj_iff hnd').mp (by rw [hgetp, heq])
    have : p = p + 1 := congrArg Fin.val hfin
    omega
  rw [List.get?_eq_none.mpr hlast]

/-- C10 witness: on the concrete catalog `Sdesc` whose current run
`2024-1` is the earliest entry, `"past"` yields the index error. -/
theorem parse_runs_past_spec_witness :
    ("past" = "past" ∨ "past" = "previous" ∨ "past" = "prior") ∧
    (runNames Sdesc).Nodup ∧ Sdesc.currentRun ∈ runNames Sdesc ∧
    (∀ r ∈ runNames Sdesc, strLe Sdesc.currentRun r = true) ∧
    Server.parse_runs_arg Sdesc (.strArg "past") = .error .indexError :=
  ⟨Or.inl rfl, by decide, by decide, by decide,
    parse_runs_past_spec Sdesc "past" (Or.inl rfl) (by decide) (by decide) (by decide)⟩

/-- C4 counterexample: on the catalog `Sdesc`, whose names are listed
newest-first, `recent_runs(1)` returns `["2024-2"]` — the current run
`2024-1` is not included and the returned name is later than the current
run, refuting the claim as stated for arbitrary catalogs. -/
theorem recent_runs_counterexample :
    Server.recent_runs Sdesc 1 = .ok ["2024-2"] ∧ Sdesc.currentRun = "2024-1" ∧
      "2024-1" ∉ (["2024-2"] : List String) ∧ strLe "2024-2" "2024-1" = false :=
  ⟨rfl, rfl, by decide, by decide⟩

/-- C4 (amended): when the catalog's run-name list is sorted in
ascending (chronological) order and contains the current run, for every
`nruns ≥ 1` `recent_runs(nruns)` returns at most `nruns` names, sorted
descending, all at-or-before the current run, with the current run
included; when the current run is absent from the catalog the call fails
(`list.index` raises). -/
theorem recent_runs_spec (S : ServerModel) (nruns : Nat) (hn : 1 ≤ nruns)
    (hsorted : List.Sorted ascRun (runNames S))
    (hcur : S.currentRun ∈ runNames S) :
    (∃ l, Server.recent_runs S nruns = .ok l ∧ l.length ≤ nruns ∧
        List.Sorted descRun l ∧ (∀ r ∈ l, strLe r S.currentRun = true) ∧
        S.currentRun ∈ l)
    ∧ (∀ T : ServerModel, ∀ m : Nat, T.currentRun ∉ runNames T →
        Server.recent_runs T m = .error .valueError) := by
  constructor
  · obtain ⟨p, hp⟩ := idxOfFirst_isSome_of_mem hcur
    obtain ⟨hplen, hgetp, -⟩ := idxOfFirst_spec hp
    have hPall : ∀ r ∈ (runNames S).take (p + 1), strLe r S.currentRun = true := by
      intro r hr
      obtain ⟨⟨j, hj⟩, hjget⟩ := List.mem_iff_get.mp hr
      have hjp1 : j < p + 1 := by
        have := hj
        rw [List.length_take] at this
        omega
      have hjlen : j < (runNames S).length := by omega
      have hPj : ((runNames S).take (p + 1)).get ⟨j, hj⟩ =
          (runNames S).get ⟨j, hjlen⟩ := by
        simp [List.get_eq_getElem, List.getElem_take]
      by_cases hjp : j = p
      · subst hjp
        rw [← hjget, hPj]
        show strLe ((runNames S).get ⟨j, hjlen⟩) S.currentRun = true
        have hc : (runNames S).get ⟨j, hjlen⟩ = S.currentRun := hgetp
        rw [hc]
        exact strLe_refl _
      · have hjp' : j < p := by omega
        have hrel : ascRun ((runNames S).get ⟨j, hjlen⟩)
            ((runNames S).get ⟨p, hplen⟩) := hsorted.rel_get_of_lt (by exact hjp')
        rw [hgetp] at hrel
        rw [← hjget, hPj]
        exact hrel
    have hplt : p < ((runNames S).take (p + 1)).length := by
      rw [List.length_take]
      omega
    have hPcur : S.currentRun ∈ (runNames S).take (p + 1) := by
      have hPp : ((runNames S).take (p + 1)).get ⟨p, hplt⟩ =
          (runNames S).get ⟨p, hplen⟩ := by
        simp [List.get_eq_getElem, List.getElem_take]
      have : ((runNames S).take (p + 1)).get ⟨p, hplt⟩ = S.currentRun := by
        rw [hPp, hgetp]
      exact this ▸ List.get_mem _ _ _
    have hQs := sortDescStr_sorted ((runNames S).take (p + 1))
    have hQcur : S.currentRun ∈ sortDescStr ((runNames S).take (p + 1)) :=
      mem_sortDescStr.mpr hPcur
    have hQall : ∀ r ∈ sortDescStr ((runNames S).take (p + 1)),
        strLe r S.currentRun = true := fun r hr => hPall r (mem_sortDescStr.mp hr)
    have hQlen : 0 < (sortDescStr ((runNames S).take (p + 1))).length :=
      List.length_pos.mpr (List.ne_nil_of_mem hQcur)
    have h0c : (sortDescStr ((runNames S).take (p + 1))).get ⟨0, hQlen⟩ =
        S.currentRun := by
      obtain ⟨⟨j0, hj0⟩, hj0get⟩ := List.mem_iff_get.mp hQcur
      rcases Nat.eq_zero_or_pos j0 with h | h
      · subst h
        exact hj0get
      · have hrel : descRun ((sortDescStr ((runNames S).take (p + 1))).get ⟨0, hQlen⟩)
            ((sortDescStr ((runNames S).take (p + 1))).get ⟨j0, hj0⟩) :=
          hQs.rel_get_of_lt (by exact h)
        rw [hj0get] at hrel
        exact strLe_antisymm (hQall _ (List.get_mem _ _ _)) hrel
    refine ⟨_, by unfold Server.recent_runs; rw [hp], ?_, ?_, ?_, ?_⟩
    · rw [List.length_take]
      exact Nat.min_le_left _ _
    · exact List.Pairwise.sublist (List.take_sublist _ _) hQs
    · exact fun r hr => hQall r (List.take_subset _ _ hr)
    · have hlt : 0 < ((sortDescStr ((runNames S).take (p + 1))).take nruns).length := by
        rw [List.length_take]
        omega
      have hfirst : ((sortDescStr ((runNames S).take (p + 1))).take nruns).get ⟨0, hlt⟩ =
          S.currentRun := by
        have h0c' := h0c
        simp only [List.get_eq_getElem] at h0c'
        simp only [List.get_eq_getElem, List.getElem_take]
        exact h0c'
      exact hfirst ▸ List.get_mem _ _ _
  · intro T m hab
    unfold Server.recent_runs
    rw [idxOfFirst_eq_none.mpr hab]

/-- C4 witness: on the ascending catalog `Sasc` with current run
`2024-1` and `nruns = 2`, the amended characterization holds with the
hypotheses discharged. -/
theorem recent_runs_spec_witness :
    1 ≤ 2 ∧ List.Sorted ascRun (runNames Sasc) ∧ Sasc.currentRun ∈ runNames Sasc ∧
    ((∃ l, Server.recent_runs Sasc 2 = .ok l ∧ l.length ≤ 2 ∧
        List.Sorted descRun l ∧ (∀ r ∈ l, strLe r Sasc.currentRun = true) ∧
        Sasc.currentRun ∈ l)
      ∧ (∀ T : ServerModel, ∀ m : Nat, T.currentRun ∉ runNames T →
          Server.recent_runs T m = .error .valueError)) :=
  ⟨by decide, by decide, by decide,
    recent_runs_spec Sasc 2 (by decide) (by decide) (by decide)⟩

/-- C3: for a sector and a run present in the catalog with interval
`[S, E]`, `Server.esafs` returns exactly the ESAFs of the upstream
sector+year listing whose parsed `experimentStartDate` lies in `[S, E]`;
a single-digit integer sector is zero-padded by `"%02d"` and a
single-character sector string is zero-padded before the listing call. -/
theorem esafs_spec (S : ServerModel) (sector : SectorArg) (run : String)
    (info : RunInfo) (y : Int)
    (hrun : (runsDict S).lookup run = some info)
    (hy : yearOf run = some y)
    (hne : run ≠ "") :
    (∃ l, Server.esafs S sector (some run) = .ok l ∧
        ∀ e, e ∈ l ↔ e ∈ S.listEsafs (formatSector sector) y ∧
          info.startTime ≤ e.experimentStartDate ∧
          e.experimentStartDate ≤ info.endTime)
    ∧ (∀ n : Int, 0 ≤ n → n < 10 → formatSector (.int n) = "0" ++ toString n)
    ∧ (∀ s : String, s.length = 1 → formatSector (.str s) = "0" ++ s) := by
  refine ⟨?_, ?_, ?_⟩
  · have hres : resolveRun S (some run) = run := by simp [resolveRun, hne]
    refine ⟨(S.listEsafs (formatSector sector) y).filter (fun e =>
        decide (info.startTime ≤ e.experimentStartDate) &&
        decide (e.experimentStartDate ≤ info.endTime)), ?_, ?_⟩
    · simp only [Server.esafs, hres, hrun, hy]
    · intro e
      rw [List.mem_filter]
      simp [Bool.and_eq_true, decide_eq_true_eq]
  · intro n h0 h10
    show (if 0 ≤ n ∧ n < 10 then "0" ++ toString n else toString n) = "0" ++ toString n
    rw [if_pos ⟨h0, h10⟩]
  · intro s hs
    show (if s.length = 1 then "0" ++ s else s) = "0" ++ s
    rw [if_pos hs]

/-- C3 witness: on `Sesaf` (run `2024-1` with interval `[10, 20]`,
sector `9`), the in-window ESAF 301 is kept and the out-of-window ESAF
302 is excluded, with the hypotheses discharged concretely. -/
theorem esafs_spec_witness :
    (runsDict Sesaf).lookup "2024-1" = some ⟨"2024-1", 10, 20⟩ ∧
    yearOf "2024-1" = some 2024 ∧ "2024-1" ≠ "" ∧
    ((∃ l, Server.esafs Sesaf (.str "9") (some "2024-1") = .ok l ∧
        ∀ e, e ∈ l ↔ e ∈ Sesaf.listEsafs (formatSector (.str "9")) 2024 ∧
          (10 : Int) ≤ e.experimentStartDate ∧ e.experimentStartDate ≤ (20 : Int))
      ∧ (∀ n : Int, 0 ≤ n → n < 10 → formatSector (.int n) = "0" ++ toString n)
      ∧ (∀ s : String, s.length = 1 → formatSector (.str s) = "0" ++ s)) :=
  ⟨by rfl, by rfl, by decide,
    esafs_spec Sesaf (.str "9") "2024-1" ⟨"2024-1", 10, 20⟩ 2024 (by rfl) (by rfl)
      (by decide)⟩

/-- C9: `trim(text, length)` raises a malformed-input error
(`ValueError`) when `length < 1`; for `length ≥ 5` the result has at
most `length` characters and ends in `"..."` whenever the text is longer
than `length`; for `1 ≤ length < 5` the result is the straight
truncation of the text to at most `length` characters, with no ellipsis
appended. -/
theorem trim_spec (text : String) (length : Int) :
    (length < 1 → trim text length = .error .valueError)
    ∧ (5 ≤ length → ∃ r, trim text length = .ok r ∧ (r.length : Int) ≤ length ∧
        ((text.length : Int) > length → ∃ pre, r = pre ++ "..."))
    ∧ (1 ≤ length → length < 5 →
        trim text length = .ok (String.mk (text.data.take length.toNat)) ∧
        (String.mk (text.data.take length.toNat)).length ≤ length.toNat) := by
  refine ⟨?_, ?_, ?_⟩
  · intro h
    unfold trim
    rw [if_pos h]
  · intro h5
    unfold trim
    rw [if_neg (by omega), if_neg (by omega)]
    by_cases hlen : (text.data.length : Int) > length
    · rw [if_pos hlen]
      refine ⟨_, rfl, ?_, fun _ => ⟨_, rfl⟩⟩
      have htake : (text.data.take (length - 3).toNat).length ≤ (length - 3).toNat := by
        rw [List.length_take]
        exact Nat.min_le_left _ _
      have hc : ((length - 3).toNat : Int) = length - 3 := Int.toNat_of_nonneg (by omega)
      rw [String.length_append, String.length_mk]
      have h3 : ("..." : String).length = 3 := by decide
      rw [h3]
      push_cast
      omega
    · rw [if_neg hlen]
      refine ⟨text, rfl, ?_, ?_⟩
      · have : text.length = text.data.length := rfl
        omega
      · intro hgt
        have : text.length = text.data.length := rfl
        omega
  · intro h1 h5
    unfold trim
    rw [if_neg (by omega), if_pos h5]
    refine ⟨rfl, ?_⟩
    rw [String.length_mk, List.length_take]
    exact Nat.min_le_left _ _

/-- C9 witness: the three regimes at concrete inputs — `length 0`
raises, `length 7` on a 10-character text gives `"abcd..."`-shaped
output, `length 3` gives the straight 3-character truncation. -/
theorem trim_spec_witness :
    ((0 : Int) < 1 → trim "abcdefghij" 0 = .error .valueError)
    ∧ ((5 : Int) ≤ 7 → ∃ r, trim "abcdefghij" 7 = .ok r ∧ (r.length : Int) ≤ 7 ∧
        ((("abcdefghij" : String).length : Int) > 7 → ∃ pre, r = pre ++ "..."))
    ∧ ((1 : Int) ≤ 3 → (3 : Int) < 5 →
        trim "abcdefghij" 3 = .ok (String.mk (("abcdefghij" : String).data.take (3 : Int).toNat)) ∧
        (String.mk (("abcdefghij" : String).data.take (3 : Int).toNat)).length ≤ (3 : Int).toNat) :=
  ⟨(trim_spec "abcdefghij" 0).1, (trim_spec "abcdefghij" 7).2.1,
    (trim_spec "abcdefghij" 3).2.2⟩

/-- C7: with the run present in the catalog, the single-proposal lookup
fails with `ProposalNotFound` — whose payload carries the proposal id,
the beamline, and the run — exactly when the id is absent as a key of
`proposals(beamline, run)`, and returns the stored proposal object
otherwise. -/
theorem proposal_spec (S : ServerModel) (proposal_id : Nat) (beamline run : String)
    (hrun : run ∈ runNames S) (hne : run ≠ "") :
    (Server.proposal S proposal_id beamline (some run) =
        .error (.proposalNotFound proposal_id beamline run) ↔
      (proposalsMap S beamline run).lookup proposal_id = none)
    ∧ (∀ p, (proposalsMap S beamline run).lookup proposal_id = some p →
        Server.proposal S proposal_id beamline (some run) = .ok p) := by
  have hres : resolveRun S (some run) = run := by simp [resolveRun, hne]
  constructor
  · constructor
    · intro h
      cases hl : (proposalsMap S beamline run).lookup proposal_id with
      | none => rfl
      | some p =>
        have hok : Server.proposal S proposal_id beamline (some run) = .ok p := by
          simp only [Server.proposal, hres, hl]
        rw [hok] at h
        cases h
    · intro h
      simp only [Server.proposal, hres, h]
  · intro p h
    simp only [Server.proposal, hres, h]

/-- C7 witness: on `Sprop` the stored proposal 77 is found on
`(9-ID, 2024-1)`, with the hypotheses discharged concretely. -/
theorem proposal_spec_witness :
    "2024-1" ∈ runNames Sprop ∧ ("2024-1" : String) ≠ "" ∧
    ((Server.proposal Sprop 77 "9-ID" (some "2024-1") =
        .error (.proposalNotFound 77 "9-ID" "2024-1") ↔
      (proposalsMap Sprop "9-ID" "2024-1").lookup 77 = none)
      ∧ (∀ p, (proposalsMap Sprop "9-ID" "2024-1").lookup 77 = some p →
          Server.proposal Sprop 77 "9-ID" (some "2024-1") = .ok p)) :=
  ⟨by decide, by decide, proposal_spec Sprop 77 "9-ID" "2024-1" (by decide) (by decide)⟩

/-- Evaluation rule: the chained comparison propagates a failing
`startTime`. -/
theorem chainedCurrent_err (e0 : PyErr) (en : Except PyErr Int) (now : Int) :
    chainedCurrent (.error e0) en now = .error e0 := rfl

/-- Evaluation rule: with `startTime` parsed, the chained comparison
short-circuits on `startTime <= now`. -/
theorem chainedCurrent_ok (s : Int) (en : Except PyErr Int) (now : Int) :
    chainedCurrent (.ok s) en now =
      if s ≤ now then (do let e ← en; pure (decide (now ≤ e))) else pure false := rfl

/-- C6 counterexample: in the restful record model, a raw record whose
`activity` field is a list makes reading `current` raise
`AttributeError` (only `ValueError` is caught there), so reading
`current` can raise. -/
theorem current_spec_counterexample :
    IS_current (JValue.obj [("activity", JValue.arr [])]) 0 = .error .attributeError :=
  rfl

/-- C6 (amended): in the legacy record model `current` never raises — a
missing or unparseable timestamp yields `False`, and when both parse it
reports `startTime <= now <= endTime`; in the restful record model a
missing timestamp or one that fails to parse as a string (`ValueError`)
yields `False` and two parsed timestamps yield the comparison, but any
failure other than `ValueError` (wrong-shaped raw data, non-string
timestamp) propagates out of `current`. -/
theorem current_spec (rawL : List (String × JValue)) (rawR : JValue) (now : Int) :
    ((∀ err, PB_startTime rawL = .error err → PB_current rawL now = false)
      ∧ (∀ s err, PB_startTime rawL = .ok s → s ≤ now →
          PB_endTime rawL = .error err → PB_current rawL now = false)
      ∧ (∀ s e, PB_startTime rawL = .ok s → PB_endTime rawL = .ok e →
          (PB_current rawL now = true ↔ s ≤ now ∧ now ≤ e)))
    ∧ ((IS_startTime rawR = .error .valueError → IS_current rawR now = .ok false)
      ∧ (∀ s, IS_startTime rawR = .ok s → s ≤ now →
          IS_endTime rawR = .error .valueError → IS_current rawR now = .ok false)
      ∧ (∀ s e, IS_startTime rawR = .ok s → IS_endTime rawR = .ok e →
          IS_current rawR now = .ok (decide (s ≤ now ∧ now ≤ e)))
      ∧ (∀ err, IS_startTime rawR = .error err → err ≠ .valueError →
          IS_current rawR now = .error err)) := by
  refine ⟨⟨?_, ?_, ?_⟩, ?_, ?_, ?_, ?_⟩
  · intro err h
    unfold PB_current
    rw [h, chainedCurrent_err]
  · intro s err hs hsn hend
    unfold PB_current
    rw [hs, hend, chainedCurrent_ok, if_pos hsn]
    rfl
  · intro s e hs he
    unfold PB_current
    rw [hs, he, chainedCurrent_ok]
    by_cases hsn : s ≤ now
    · rw [if_pos hsn]
      simp [hsn]
    · rw [if_neg hsn]
      simp [hsn, pure, Except.pure]
  · intro h
    unfold IS_current
    rw [h, chainedCurrent_err]
  · intro s hs hsn hend
    unfold IS_current
    rw [hs, hend, chainedCurrent_ok, if_pos hsn]
    rfl
  · intro s e hs he
    unfold IS_current
    rw [hs, he, chainedCurrent_ok]
    by_cases hsn : s ≤ now
    · rw [if_pos hsn]
      simp [hsn]
    · rw [if_neg hsn]
      simp [hsn, pure, Except.pure]
  · intro err h hne
    unfold IS_current
    rw [h, chainedCurrent_err]
    cases err <;> first | rfl | exact absurd rfl hne

/-- C6 witness: at concrete records — a legacy record with timestamps
`0` and `10` and a restful record with run fallback timestamps — the
amended characterization holds, the hypotheses discharged at `now = 5`. -/
theorem current_spec_witness :
    PB_current [("startTime", JValue.str "0"), ("endTime", JValue.str "10")] 5 = true ∧
    IS_current (JValue.obj [("run",
      JValue.obj [("startTime", JValue.str "0"), ("endTime", JValue.str "10")])]) 5 =
        .ok true ∧
    IS_current (JValue.obj [("activity", JValue.num 3)]) 5 = .error .attributeError := by
  have h := current_spec
    [("startTime", JValue.str "0"), ("endTime", JValue.str "10")]
    (JValue.obj [("run",
      JValue.obj [("startTime", JValue.str "0"), ("endTime", JValue.str "10")])]) 5
  have h2 := current_spec [] (JValue.obj [("activity", JValue.num 3)]) 5
  refine ⟨?_, ?_, ?_⟩
  · exact (h.1.2.2 0 10 rfl rfl).mpr (by decide)
  · have := h.2.2.2.1 0 10 rfl rfl
    rw [this]
    rfl
  · exact h2.2.2.2.2 .attributeError rfl (by decide)

/-- Evaluation rule: an exhausted path returns the current value, for
every shape of that value. -/
theorem minerParts_nil (v : JValue) (i num : Nat) (d : JValue) :
    minerParts v [] i num d = .ok v := by
  cases v <;> rfl

/-- C5: `miner` walks a dot-separated path substituting `{}` for an
absent key at a non-final segment (so traversal continues) and returning
the caller's default for an absent final segment — in particular
`miner({"a":{"b":5}}, "a.b", None) = 5` and `miner({}, "a.b", "X") =
"X"` — while a present non-mapping intermediate value (a list) raises
`AttributeError` instead of yielding the default. -/
theorem miner_spec :
    miner (JValue.obj [("a", JValue.obj [("b", JValue.num 5)])]) "a.b" JValue.null =
        .ok (JValue.num 5)
    ∧ (∀ d, miner (JValue.obj []) "a.b" d = .ok d)
    ∧ miner (JValue.obj [("a", JValue.arr [JValue.num 1, JValue.num 2])]) "a.b"
        (JValue.str "X") = .error .attributeError
    ∧ (∀ entries d, List.lookup "a" entries = none →
        miner (JValue.obj entries) "a.b" d = .ok d)
    ∧ (∀ entries (k : String) rest i num d, i < num → List.lookup k entries = none →
        minerParts (JValue.obj entries) (k :: rest) i num d =
          minerParts (JValue.obj []) rest (i + 1) num d)
    ∧ (∀ entries (k : String) i num d, ¬ i < num → List.lookup k entries = none →
        minerParts (JValue.obj entries) [k] i num d = .ok d) := by
  refine ⟨rfl, ?_, rfl, ?_, ?_, ?_⟩
  · intro d
    show minerParts (JValue.obj []) ["a", "b"] 1 2 d = .ok d
    have s1 : minerParts (JValue.obj []) ["a", "b"] 1 2 d =
        minerParts (JValue.obj []) ["b"] 2 2 d := rfl
    have s2 : minerParts (JValue.obj []) ["b"] 2 2 d =
        minerParts d [] 3 2 d := rfl
    rw [s1, s2, minerParts_nil]
  · intro entries d h
    show minerParts (JValue.obj entries) ["a", "b"] 1 2 d = .ok d
    have step : minerParts (JValue.obj entries) ["a", "b"] 1 2 d =
        minerParts ((entries.lookup "a").getD (JValue.obj [])) ["b"] 2 2 d := rfl
    have s2 : minerParts (JValue.obj []) ["b"] 2 2 d =
        minerParts d [] 3 2 d := rfl
    rw [step, h, Option.getD_none, s2, minerParts_nil]
  · intro entries k rest i num d hlt h
    have step : minerParts (JValue.obj entries) (k :: rest) i num d =
        minerParts ((entries.lookup k).getD
          (if i < num then JValue.obj [] else d)) rest (i + 1) num d := rfl
    rw [step, h, Option.getD_none, if_pos hlt]
  · intro entries k i num d hge h
    have step : minerParts (JValue.obj entries) [k] i num d =
        minerParts ((entries.lookup k).getD
          (if i < num then JValue.obj [] else d)) [] (i + 1) num d := rfl
    rw [step, h, Option.getD_none, if_neg hge, minerParts_nil]

/-- C5 witness: the general absent-key clauses applied at a concrete
dictionary that lacks the keys `a` and `b`. -/
theorem miner_spec_witness :
    miner (JValue.obj [("z", JValue.num 1)]) "a.b" (JValue.str "X") =
        .ok (JValue.str "X") ∧
    minerParts (JValue.obj [("z", JValue.num 1)]) ["a", "b"] 1 2 JValue.null =
        minerParts (JValue.obj []) ["b"] 2 2 JValue.null ∧
    minerParts (JValue.obj [("z", JValue.num 1)]) ["b"] 2 2 (JValue.str "X") =
        .ok (JValue.str "X") :=
  ⟨miner_spec.2.2.2.1 [("z", JValue.num 1)] (JValue.str "X") rfl,
    miner_spec.2.2.2.2.1 [("z", JValue.num 1)] "a" ["b"] 1 2 JValue.null
      (by decide) rfl,
    miner_spec.2.2.2.2.2 [("z", JValue.num 1)] "b" 2 2 (JValue.str "X")
      (by decide) rfl⟩

/-- Evaluation rule for the `Except` monad: bind on a success. -/
theorem except_bind_ok (a : α) (f : α → Except PyErr β) :
    (Except.ok a >>= f) = f a := rfl

/-- Evaluation rule for the `Except` monad: bind on a failure. -/
theorem except_bind_error (e : PyErr) (f : α → Except PyErr β) :
    ((Except.error e : Except PyErr α) >>= f) = Except.error e := rfl

/-- `activities` touches only the keyed `_cache`: the fetch counter, the
cache slot and the stored proposals are unchanged. -/
theorem IS_activities_frame {env : ISEnv} {b r : String} {st : ISState}
    {d : List (JValue × JValue)} {st' : ISState}
    (h : IS_activities env b r st = .ok (d, st')) :
    st'.nfetch = st.nfetch ∧ st'._beamline = st._beamline ∧ st'._run = st._run ∧
      st'._proposals = st._proposals := by
  unfold IS_activities at h
  dsimp only at h
  cases hc : st._cache.lookup (activitiesKey b r) with
  | some dd =>
    rw [hc] at h
    injection h with h
    have h2 : st = st' := congrArg Prod.snd h
    subst h2
    exact ⟨rfl, rfl, rfl, rfl⟩
  | none =>
    rw [hc] at h
    cases ha : actPairs (env.activitiesRemote r b) with
    | error e =>
      rw [ha] at h
      cases h
    | ok pairs =>
      rw [ha] at h
      injection h with h
      have h2 : ({ st with _cache := st._cache ++ [(activitiesKey b r, dictOf pairs)] }
          : ISState) = st' := congrArg Prod.snd h
      subst h2
      exact ⟨rfl, rfl, rfl, rfl⟩

/-- The proposal-building loop touches only `_proposals` and `_cache`:
the fetch counter and the cache-slot identifiers are unchanged. -/
theorem buildProps_frame {env : ISEnv} {b r : String} :
    ∀ (es : List JValue) (st st' : ISState),
      buildProps env b r es st = .ok st' →
      st'.nfetch = st.nfetch ∧ st'._beamline = st._beamline ∧ st'._run = st._run := by
  intro es
  induction es with
  | nil =>
    intro st st' h
    unfold buildProps at h
    injection h with h
    subst h
    exact ⟨rfl, rfl, rfl⟩
  | cons entry rest ih =>
    intro st st' h
    unfold buildProps at h
    cases hg : gupIdOf entry with
    | error e =>
      rw [hg, except_bind_error] at h
      cases h
    | ok gup =>
      rw [hg, except_bind_ok] at h
      cases hact : IS_activities env b r st with
      | error e =>
        rw [hact, except_bind_error] at h
        cases h
      | ok pair =>
        obtain ⟨acts, st1⟩ := pair
        rw [hact, except_bind_ok] at h
        dsimp only at h
        have hfa := IS_activities_frame hact
        cases hl : acts.lookup gup with
        | none =>
          rw [hl] at h
          dsimp only at h
          have hf := ih _ _ h
          exact ⟨hf.1.trans hfa.1, hf.2.1.trans hfa.2.1, hf.2.2.trans hfa.2.2.1⟩
        | some activity =>
          rw [hl] at h
          dsimp only at h
          cases hj : jSet entry "activity" activity with
          | error e =>
            rw [hj, except_bind_error] at h
            cases h
          | ok entry2 =>
            rw [hj, except_bind_ok] at h
            have hf := ih _ _ h
            exact ⟨hf.1.trans hfa.1, hf.2.1.trans hfa.2.1, hf.2.2.trans hfa.2.2.1⟩

/-- C8: after a successful `proposals(beamline, run)` call, an
immediately repeated call with the same pair issues no new fetch and
returns the same mapping and state unchanged; a call with a different
beamline or run issues exactly one new proposal fetch, stores its result
as the new single-slot cache contents (discarding the prior pair's), and
re-keys the slot; an omitted `run` defaults to the current run's
identifier before the comparison. -/
theorem IS_proposals_cache_spec (env : ISEnv) (b run : String) (st : ISState)
    (r1 : List (JValue × JValue)) (s1 : ISState)
    (h1 : IS_proposals env b (some run) st = .ok (r1, s1)) :
    IS_proposals env b (some run) s1 = .ok (r1, s1)
    ∧ (∀ b' run', b' ≠ b ∨ run' ≠ run →
        ∀ r2 s2, IS_proposals env b' (some run') s1 = .ok (r2, s2) →
          s2.nfetch = s1.nfetch + 1 ∧ s2._beamline = some b' ∧ s2._run = some run' ∧
            s2._proposals = r2)
    ∧ (∀ T : ISState, IS_proposals env b none T =
        IS_proposals env b (some env.currentRunName) T) := by
  have hpost : s1._beamline = some b ∧ s1._run = some run ∧ s1._proposals = r1 := by
    unfold IS_proposals at h1
    dsimp only at h1
    by_cases hc : st._beamline ≠ some b ∨ st._run ≠ some run
    · rw [if_pos hc] at h1
      cases hb : buildProps env b run (env.requests run b)
          { st with
            nfetch := st.nfetch + 1
            _beamline := some b
            _run := some run
            _proposals := [] } with
      | error e =>
        rw [hb] at h1
        cases h1
      | ok st2 =>
        rw [hb] at h1
        injection h1 with h1
        have h1a : st2._proposals = r1 := congrArg Prod.fst h1
        have h1b : st2 = s1 := congrArg Prod.snd h1
        subst h1b
        have hf := buildProps_frame _ _ _ hb
        exact ⟨hf.2.1, hf.2.2, h1a⟩
    · rw [if_neg hc] at h1
      push_neg at hc
      injection h1 with h1
      have h1a : st._proposals = r1 := congrArg Prod.fst h1
      have h1b : st = s1 := congrArg Prod.snd h1
      subst h1b
      exact ⟨hc.1, hc.2, h1a⟩
  refine ⟨?_, ?_, ?_⟩
  · unfold IS_proposals
    dsimp only
    rw [if_neg (by simp [hpost.1, hpost.2.1]), hpost.2.2]
  · intro b' run' hne r2 s2 h2
    unfold IS_proposals at h2
    dsimp only at h2
    have hcond : s1._beamline ≠ some b' ∨ s1._run ≠ some run' := by
      rcases hne with h | h
      · left
        rw [hpost.1]
        intro he
        exact h (Option.some.inj he).symm
      · right
        rw [hpost.2.1]
        intro he
        exact h (Option.some.inj he).symm
    rw [if_pos hcond] at h2
    cases hb : buildProps env b' run' (env.requests run' b')
        { s1 with
          nfetch := s1.nfetch + 1
          _beamline := some b'
          _run := some run'
          _proposals := [] } with
    | error e =>
      rw [hb] at h2
      cases h2
    | ok st2 =>
      rw [hb] at h2
      injection h2 with h2
      have h2a : st2._proposals = r2 := congrArg Prod.fst h2
      have h2b : st2 = s2 := congrArg Prod.snd h2
      subst h2b
      have hf := buildProps_frame _ _ _ hb
      exact ⟨hf.1, hf.2.1, hf.2.2, h2a⟩
  · intro T
    rfl

/-- C8 witness: against the trivial environment `env0`, the first fetch
of `(9-ID, 2024-1)` from the fresh state `ist0` yields state `ist1`; the
characterization then holds with the first-call hypothesis discharged by
computation. -/
theorem IS_proposals_cache_spec_witness :
    IS_proposals env0 "9-ID" (some "2024-1") ist0 = .ok ([], ist1) ∧
    (IS_proposals env0 "9-ID" (some "2024-1") ist1 = .ok ([], ist1)
      ∧ (∀ b' run', b' ≠ "9-ID" ∨ run' ≠ "2024-1" →
          ∀ r2 s2, IS_proposals env0 b' (some run') ist1 = .ok (r2, s2) →
            s2.nfetch = ist1.nfetch + 1 ∧ s2._beamline = some b' ∧
              s2._run = some run' ∧ s2._proposals = r2)
      ∧ (∀ T : ISState, IS_proposals env0 "9-ID" none T =
          IS_proposals env0 "9-ID" (some env0.currentRunName) T)) :=
  ⟨rfl, IS_proposals_cache_spec env0 "9-ID" "2024-1" ist0 [] ist1 rfl⟩

/-! ### Lemmas for the badge-matching aggregation -/

theorem lookup_isSome_of_mem_keys [BEq κ] [LawfulBEq κ] [DecidableEq κ]
    {m : List (κ × α)} {k : κ} (h : k ∈ m.map Prod.fst) : (m.lookup k).isSome := by
  induction m with
  | nil => simp at h
  | cons kv rest ih =>
    obtain ⟨k0, v0⟩ := kv
    by_cases h' : k = k0
    · subst h'
      rw [lookup_cons_self]
      rfl
    · rw [lookup_cons_ne _ _ h']
      apply ih
      simp only [List.map_cons, List.mem_cons] at h
      rcases h with he | hm
      · exact absurd he h'
      · exact hm

theorem runsDict_lookup_isSome {S : ServerModel} {r : String} (h : r ∈ runNames S) :
    ((runsDict S).lookup r).isSome := by
  rw [runsDict, lookup_dictOf]
  apply lookup_isSome_of_mem_keys
  rw [List.map_reverse, List.mem_reverse, List.map_map]
  simpa [runNames, Function.comp] using h

theorem collectEsafs_ok (S : ServerModel) (sector : SectorArg) :
    ∀ runsL : List String,
      (∀ r ∈ runsL, r ≠ "" ∧ ((runsDict S).lookup r).isSome ∧ (yearOf r).isSome) →
      ∃ l, collectEsafs S sector runsL = .ok l := by
  intro runsL
  induction runsL with
  | nil => exact fun _ => ⟨[], rfl⟩
  | cons r rs ih =>
    intro h
    obtain ⟨hne, hlk, hy⟩ := h r (List.mem_cons_self r rs)
    obtain ⟨l2, hl2⟩ := ih (fun x hx => h x (List.mem_cons_of_mem _ hx))
    have hres : resolveRun S (some r) = r := by simp [resolveRun, hne]
    obtain ⟨info, hinfo⟩ := Option.isSome_iff_exists.mp hlk
    obtain ⟨y, hyy⟩ := Option.isSome_iff_exists.mp hy
    have hesafs : Server.esafs S sector (some r) =
        .ok ((S.listEsafs (formatSector sector) y).filter (fun e =>
          decide (info.startTime ≤ e.experimentStartDate) &&
          decide (e.experimentStartDate ≤ info.endTime))) := by
      simp only [Server.esafs, hres, hinfo, hyy]
    refine ⟨(S.listEsafs (formatSector sector) y).filter (fun e =>
        decide (info.startTime ≤ e.experimentStartDate) &&
        decide (e.experimentStartDate ≤ info.endTime)) ++ l2, ?_⟩
    unfold collectEsafs
    rw [hesafs, except_bind_ok, hl2, except_bind_ok]
    rfl

theorem filterMap_guard_eq {γ : Type} (m : List (Nat × γ)) (P : Nat × γ → Prop)
    [DecidablePred P] :
    m.filterMap (fun ev => if P ev then some ev.1 else none) =
      (m.filter (fun ev => decide (P ev))).map Prod.fst := by
  induction m with
  | nil => rfl
  | cons ev rest ih =>
    rw [List.filterMap_cons, List.filter_cons]
    by_cases h : P ev
    · rw [if_pos h, if_pos (by simpa using h), List.map_cons, ih]
    · rw [if_neg h, if_neg (by simpa using h), ih]

/-- Membership in the `common` list of matching ESAF ids: exactly the
deduplicated (last-wins) ESAFs whose sorted badge list equals the
proposal's. -/
theorem common_mem (EL : List EsafRec) (v : PropRec) (eid : Nat) :
    eid ∈ (dictOf (EL.map (fun e => (e.esafId, e)))).filterMap
        (fun ev => if sortStr ev.2.badges = sortStr v.badges then some ev.1 else none)
      ↔ ∃ e, (EL.map (fun e => (e.esafId, e))).reverse.lookup eid = some e ∧
          sortStr e.badges = sortStr v.badges := by
  rw [List.mem_filterMap]
  constructor
  · rintro ⟨⟨k, e⟩, hmem, hf⟩
    dsimp only at hf
    by_cases hcond : sortStr e.badges = sortStr v.badges
    · rw [if_pos hcond] at hf
      injection hf with hf
      subst hf
      refine ⟨e, ?_, hcond⟩
      rw [← lookup_dictOf]
      exact (lookup_eq_some_iff_mem (nodup_keys_dictOf _) _ _).mpr hmem
    · rw [if_neg hcond] at hf
      cases hf
  · rintro ⟨e, hlook, hcond⟩
    refine ⟨(eid, e), ?_, ?_⟩
    · exact (lookup_eq_some_iff_mem (nodup_keys_dictOf _) _ _).mp
        (by rw [lookup_dictOf]; exact hlook)
    · dsimp only
      rw [if_pos hcond]

/-- Emptiness of the `common` list: no deduplicated ESAF's sorted badge
list equals the proposal's. -/
theorem common_nil (EL : List EsafRec) (v : PropRec) :
    (dictOf (EL.map (fun e => (e.esafId, e)))).filterMap
        (fun ev => if sortStr ev.2.badges = sortStr v.badges then some ev.1 else none) = []
      ↔ ∀ eid e, (EL.map (fun e => (e.esafId, e))).reverse.lookup eid = some e →
          sortStr e.badges ≠ sortStr v.badges := by
  rw [List.filterMap_eq_nil_iff]
  constructor
  · intro hall eid e hlook hcond
    have hmem := (lookup_eq_some_iff_mem
        (nodup_keys_dictOf (EL.map (fun e => (e.esafId, e)))) eid e).mp
      (by rw [lookup_dictOf]; exact hlook)
    have := hall _ hmem
    dsimp only at this
    rw [if_pos hcond] at this
    cases this
  · rintro hnone ⟨k, e⟩ hmem
    dsimp only
    by_cases hcond : sortStr e.badges = sortStr v.badges
    · exfalso
      refine hnone k e ?_ hcond
      rw [← lookup_dictOf]
      exact (lookup_eq_some_iff_mem (nodup_keys_dictOf _) _ _).mpr hmem
    · rw [if_neg hcond]

/-- The `common` list has no duplicate ESAF ids: it selects keys of a
dictionary. -/
theorem common_nodup (EL : List EsafRec) (v : PropRec) :
    ((dictOf (EL.map (fun e => (e.esafId, e)))).filterMap
        (fun ev => if sortStr ev.2.badges = sortStr v.badges then some ev.1 else none)).Nodup := by
  have heq : (dictOf (EL.map (fun e => (e.esafId, e)))).filterMap
      (fun ev => if sortStr ev.2.badges = sortStr v.badges then some ev.1 else none) =
      ((dictOf (EL.map (fun e => (e.esafId, e)))).filter
        (fun ev => decide (sortStr ev.2.badges = sortStr v.badges))).map Prod.fst :=
    filterMap_guard_eq _ (fun ev : Nat × EsafRec => sortStr ev.2.badges = sortStr v.badges)
  rw [heq]
  exact List.Nodup.sublist
    (List.Sublist.map _ (List.filter_sublist _))
    (nodup_keys_dictOf _)

/-- Characterization of the badge-matching dictionary built by
`current_esafs_and_proposals` from a gathered proposal list `PL` and a
gathered ESAF list `EL`: its keys are exactly the (last-wins
deduplicated) proposal ids with at least one badge-matching ESAF, and
each value is the sorted, duplicate-free list of exactly the matching
ESAF ids. -/
theorem matches_characterization (PL : List PropRec) (EL : List EsafRec) :
    (∀ pid ids,
        ((dictOf (PL.map (fun q => (q.pid, q)))).filterMap
          (fun kv =>
            if (dictOf (EL.map (fun e => (e.esafId, e)))).filterMap
                (fun ev => if sortStr ev.2.badges = sortStr kv.2.badges
                  then some ev.1 else none) = []
            then none
            else some (kv.1, sortNat ((dictOf (EL.map (fun e => (e.esafId, e)))).filterMap
              (fun ev => if sortStr ev.2.badges = sortStr kv.2.badges
                then some ev.1 else none))))).lookup pid = some ids →
        ∃ p, (PL.map (fun q => (q.pid, q))).reverse.lookup pid = some p ∧
          ids ≠ [] ∧ List.Sorted (· ≤ ·) ids ∧ ids.Nodup ∧
          (∀ eid, eid ∈ ids ↔ ∃ e,
            (EL.map (fun e => (e.esafId, e))).reverse.lookup eid = some e ∧
            sortStr e.badges = sortStr p.badges))
    ∧ (∀ pid,
        ((dictOf (PL.map (fun q => (q.pid, q)))).filterMap
          (fun kv =>
            if (dictOf (EL.map (fun e => (e.esafId, e)))).filterMap
                (fun ev => if sortStr ev.2.badges = sortStr kv.2.badges
                  then some ev.1 else none) = []
            then none
            else some (kv.1, sortNat ((dictOf (EL.map (fun e => (e.esafId, e)))).filterMap
              (fun ev => if sortStr ev.2.badges = sortStr kv.2.badges
                then some ev.1 else none))))).lookup pid = none ↔
        ((PL.map (fun q => (q.pid, q))).reverse.lookup pid = none
          ∨ ∃ p, (PL.map (fun q => (q.pid, q))).reverse.lookup pid = some p ∧
            ∀ eid e, (EL.map (fun e => (e.esafId, e))).reverse.lookup eid = some e →
              sortStr e.badges ≠ sortStr p.badges)) := by
  have hfeq : (fun kv : Nat × PropRec =>
      if (dictOf (EL.map (fun e => (e.esafId, e)))).filterMap
          (fun ev => if sortStr ev.2.badges = sortStr kv.2.badges
            then some ev.1 else none) = []
      then none
      else some (kv.1, sortNat ((dictOf (EL.map (fun e => (e.esafId, e)))).filterMap
        (fun ev => if sortStr ev.2.badges = sortStr kv.2.badges
          then some ev.1 else none)))) =
    (fun kv : Nat × PropRec =>
      ((fun v : PropRec =>
        if (dictOf (EL.map (fun e => (e.esafId, e)))).filterMap
            (fun ev => if sortStr ev.2.badges = sortStr v.badges
              then some ev.1 else none) = []
        then none
        else some (sortNat ((dictOf (EL.map (fun e => (e.esafId, e)))).filterMap
          (fun ev => if sortStr ev.2.badges = sortStr v.badges
            then some ev.1 else none)))) kv.2).map (fun b => (kv.1, b))) := by
    funext kv
    dsimp only
    by_cases hc : (dictOf (EL.map (fun e => (e.esafId, e)))).filterMap
        (fun ev => if sortStr ev.2.badges = sortStr kv.2.badges
          then some ev.1 else none) = []
    · rw [if_pos hc, if_pos hc]
      rfl
    · rw [if_neg hc, if_neg hc]
      rfl
  have hres_eq : ∀ q : Nat,
      ((dictOf (PL.map (fun q => (q.pid, q)))).filterMap
        (fun kv =>
          if (dictOf (EL.map (fun e => (e.esafId, e)))).filterMap
              (fun ev => if sortStr ev.2.badges = sortStr kv.2.badges
                then some ev.1 else none) = []
          then none
          else some (kv.1, sortNat ((dictOf (EL.map (fun e => (e.esafId, e)))).filterMap
            (fun ev => if sortStr ev.2.badges = sortStr kv.2.badges
              then some ev.1 else none))))).lookup q =
      ((dictOf (PL.map (fun q => (q.pid, q)))).lookup q).bind
        (fun v : PropRec =>
          if (dictOf (EL.map (fun e => (e.esafId, e)))).filterMap
              (fun ev => if sortStr ev.2.badges = sortStr v.badges
                then some ev.1 else none) = []
          then none
          else some (sortNat ((dictOf (EL.map (fun e => (e.esafId, e)))).filterMap
            (fun ev => if sortStr ev.2.badges = sortStr v.badges
              then some ev.1 else none)))) := by
    intro q
    rw [hfeq]
    exact lookup_filterMap_keyed (dictOf (PL.map (fun q => (q.pid, q))))
      (fun v : PropRec =>
        if (dictOf (EL.map (fun e => (e.esafId, e)))).filterMap
            (fun ev => if sortStr ev.2.badges = sortStr v.badges
              then some ev.1 else none) = []
        then none
        else some (sortNat ((dictOf (EL.map (fun e => (e.esafId, e)))).filterMap
          (fun ev => if sortStr ev.2.badges = sortStr v.badges
            then some ev.1 else none))))
      (nodup_keys_dictOf _) q
  constructor
  · intro pid ids hids
    rw [hres_eq pid] at hids
    cases hlp : (dictOf (PL.map (fun q => (q.pid, q)))).lookup pid with
    | none =>
      rw [hlp] at hids
      cases hids
    | some v =>
      rw [hlp] at hids
      have hids' : (if (dictOf (EL.map (fun e => (e.esafId, e)))).filterMap
            (fun ev => if sortStr ev.2.badges = sortStr v.badges
              then some ev.1 else none) = []
          then none
          else some (sortNat ((dictOf (EL.map (fun e => (e.esafId, e)))).filterMap
            (fun ev => if sortStr ev.2.badges = sortStr v.badges
              then some ev.1 else none)))) = some ids := hids
      by_cases hc : (dictOf (EL.map (fun e => (e.esafId, e)))).filterMap
          (fun ev => if sortStr ev.2.badges = sortStr v.badges
            then some ev.1 else none) = []
      · rw [if_pos hc] at hids'
        cases hids'
      · rw [if_neg hc] at hids'
        injection hids' with hids'
        refine ⟨v, ?_, ?_, ?_, ?_, ?_⟩
        · rw [← lookup_dictOf]
          exact hlp
        · intro hnil
          apply hc
          rw [← List.length_eq_zero]
          have hlen : ids.length = ((dictOf (EL.map (fun e => (e.esafId, e)))).filterMap
              (fun ev => if sortStr ev.2.badges = sortStr v.badges
                then some ev.1 else none)).length := by
            rw [← hids']
            exact (List.perm_insertionSort _ _).length_eq
          rw [hnil] at hlen
          simp at hlen
          omega
        · rw [← hids']
          exact List.sorted_insertionSort _ _
        · rw [← hids']
          exact (List.perm_insertionSort _ _).nodup_iff.mpr (common_nodup EL v)
        · intro eid
          rw [← hids', sortNat, List.mem_insertionSort]
          exact common_mem EL v eid
  · intro pid
    rw [hres_eq pid]
    constructor
    · intro hnone
      cases hlp : (dictOf (PL.map (fun q => (q.pid, q)))).lookup pid with
      | none =>
        left
        rw [← lookup_dictOf]
        exact hlp
      | some v =>
        right
        refine ⟨v, by rw [← lookup_dictOf]; exact hlp, ?_⟩
        rw [hlp] at hnone
        by_cases hc : (dictOf (EL.map (fun e => (e.esafId, e)))).filterMap
            (fun ev => if sortStr ev.2.badges = sortStr v.badges
              then some ev.1 else none) = []
        · exact (common_nil EL v).mp hc
        · exfalso
          have hnone' : (if (dictOf (EL.map (fun e => (e.esafId, e)))).filterMap
                (fun ev => if sortStr ev.2.badges = sortStr v.badges
                  then some ev.1 else none) = []
              then none
              else some (sortNat ((dictOf (EL.map (fun e => (e.esafId, e)))).filterMap
                (fun ev => if sortStr ev.2.badges = sortStr v.badges
                  then some ev.1 else none)))) = none := hnone
          rw [if_neg hc] at hnone'
          cases hnone'
    · intro h
      rcases h with hnone | ⟨v, hv, hmatch⟩
      · rw [lookup_dictOf, hnone]
        rfl
      · rw [lookup_dictOf, hv]
        show (if (dictOf (EL.map (fun e => (e.esafId, e)))).filterMap
              (fun ev => if sortStr ev.2.badges = sortStr v.badges
                then some ev.1 else none) = []
            then none
            else some (sortNat ((dictOf (EL.map (fun e => (e.esafId, e)))).filterMap
              (fun ev => if sortStr ev.2.badges = sortStr v.badges
                then some ev.1 else none)))) = none
        rw [if_pos ((common_nil EL v).mpr hmatch)]

/-- C1: with the current run in a well-formed catalog and `nruns ≥ 1`,
`current_esafs_and_proposals(beamline, nruns)` gathers the ESAFs and the
proposals across the `nruns` most recent runs, deduplicates each by id
with last-seen-wins, and returns a mapping whose keys are exactly the
proposal ids having at least one gathered ESAF whose sorted
experimenter-badge list equals, as a list, the proposal's sorted
experimenter-badge list; each key maps to the sorted duplicate-free list
of exactly the matching ESAF ids, and proposals with no matching ESAF
are omitted. -/
theorem current_esafs_and_proposals_spec (S : ServerModel) (beamline : String)
    (nruns : Nat) (hn : 1 ≤ nruns)
    (hcur : S.currentRun ∈ runNames S)
    (hwf : ∀ r ∈ runNames S, r ≠ "" ∧ (yearOf r).isSome) :
    ∃ recentL EL res,
      Server.recent_runs S nruns = .ok recentL ∧
      collectEsafs S (.str ((splitCh '-' beamline).headD "")) recentL = .ok EL ∧
      Server.current_esafs_and_proposals S beamline nruns = .ok res ∧
      (∀ pid ids, res.lookup pid = some ids →
        ∃ p, ((collectProps S beamline recentL).map
            (fun q => (q.pid, q))).reverse.lookup pid = some p ∧
          ids ≠ [] ∧ List.Sorted (· ≤ ·) ids ∧ ids.Nodup ∧
          (∀ eid, eid ∈ ids ↔ ∃ e,
            (EL.map (fun e => (e.esafId, e))).reverse.lookup eid = some e ∧
            sortStr e.badges = sortStr p.badges))
      ∧ (∀ pid, res.lookup pid = none ↔
          (((collectProps S beamline recentL).map
              (fun q => (q.pid, q))).reverse.lookup pid = none
            ∨ ∃ p, ((collectProps S beamline recentL).map
                (fun q => (q.pid, q))).reverse.lookup pid = some p ∧
              ∀ eid e, (EL.map (fun e => (e.esafId, e))).reverse.lookup eid = some e →
                sortStr e.badges ≠ sortStr p.badges)) := by
  obtain ⟨p, hp⟩ := idxOfFirst_isSome_of_mem hcur
  have hrec : Server.recent_runs S nruns =
      .ok ((sortDescStr ((runNames S).take (p + 1))).take nruns) := by
    unfold Server.recent_runs
    rw [hp]
  have hsubset : ∀ r ∈ (sortDescStr ((runNames S).take (p + 1))).take nruns,
      r ∈ runNames S := fun r hr =>
    List.take_subset _ _ (mem_sortDescStr.mp (List.take_subset _ _ hr))
  obtain ⟨EL, hEL⟩ := collectEsafs_ok S (.str ((splitCh '-' beamline).headD ""))
    ((sortDescStr ((runNames S).take (p + 1))).take nruns)
    (fun r hr => ⟨(hwf r (hsubset r hr)).1, runsDict_lookup_isSome (hsubset r hr),
      (hwf r (hsubset r hr)).2⟩)
  refine ⟨(sortDescStr ((runNames S).take (p + 1))).take nruns, EL,
    (dictOf ((collectProps S beamline
        ((sortDescStr ((runNames S).take (p + 1))).take nruns)).map
        (fun q => (q.pid, q)))).filterMap
      (fun kv =>
        if (dictOf (EL.map (fun e => (e.esafId, e)))).filterMap
            (fun ev => if sortStr ev.2.badges = sortStr kv.2.badges
              then some ev.1 else none) = []
        then none
        else some (kv.1, sortNat ((dictOf (EL.map (fun e => (e.esafId, e)))).filterMap
          (fun ev => if sortStr ev.2.badges = sortStr kv.2.badges
            then some ev.1 else none)))),
    hrec, hEL, ?_, ?_, ?_⟩
  · simp only [Server.current_esafs_and_proposals]
    rw [hrec, except_bind_ok, hEL, except_bind_ok]
    rfl
  · exact fun pid ids hids =>
      (matches_characterization
        (collectProps S beamline ((sortDescStr ((runNames S).take (p + 1))).take nruns))
        EL).1 pid ids hids
  · exact fun pid =>
      (matches_characterization
        (collectProps S beamline ((sortDescStr ((runNames S).take (p + 1))).take nruns))
        EL).2 pid

/-- C1 witness: on `Smatch` (proposal 7 with badges `{"10","20"}`, ESAF
101 with badges `{"20","10"}`, ESAF 102 with badges `{"10"}`), the
aggregation maps proposal 7 to exactly `[101]` — set-equal badge lists
match, subsets do not — and the characterization holds with all
hypotheses discharged. -/
theorem current_esafs_and_proposals_spec_witness :
    Server.current_esafs_and_proposals Smatch "9-ID" 2 = .ok [(7, [101])] ∧
    1 ≤ 2 ∧ Smatch.currentRun ∈ runNames Smatch ∧
    (∀ r ∈ runNames Smatch, r ≠ "" ∧ (yearOf r).isSome) ∧
    (∃ recentL EL res,
      Server.recent_runs Smatch 2 = .ok recentL ∧
      collectEsafs Smatch (.str ((splitCh '-' "9-ID").headD "")) recentL = .ok EL ∧
      Server.current_esafs_and_proposals Smatch "9-ID" 2 = .ok res ∧
      (∀ pid ids, res.lookup pid = some ids →
        ∃ p, ((collectProps Smatch "9-ID" recentL).map
            (fun q => (q.pid, q))).reverse.lookup pid = some p ∧
          ids ≠ [] ∧ List.Sorted (· ≤ ·) ids ∧ ids.Nodup ∧
          (∀ eid, eid ∈ ids ↔ ∃ e,
            (EL.map (fun e => (e.esafId, e))).reverse.lookup eid = some e ∧
            sortStr e.badges = sortStr p.badges))
      ∧ (∀ pid, res.lookup pid = none ↔
          (((collectProps Smatch "9-ID" recentL).map
              (fun q => (q.pid, q))).reverse.lookup pid = none
            ∨ ∃ p, ((collectProps Smatch "9-ID" recentL).map
                (fun q => (q.pid, q))).reverse.lookup pid = some p ∧
              ∀ eid e, (EL.map (fun e => (e.esafId, e))).reverse.lookup eid = some e →
                sortStr e.badges ≠ sortStr p.badges))) :=
  ⟨rfl, by decide, by decide, by decide,
    current_esafs_and_proposals_spec Smatch "9-ID" 2 (by decide) (by decide) (by decide)⟩
